import Mathlib

/-!
Shallow embedding of the public API request handlers of `massa-api/src/public.rs`
(the read-facing query surface of a Massa node), together with proofs about them.

Modelling conventions:
- Identifiers and opaque payloads (`OperationId`, `BlockId`, `EndorsementId`,
  `Address`, operation/endorsement/block payloads, statistics, events) are
  modelled as `Nat`: the handlers never inspect their structure.
- Rust `HashMap`/`Map` values are modelled as association lists
  (`List (key × value)`); the list order stands for the map's (unspecified)
  iteration order, so any order of an association list is a behaviour the
  real `HashMap` may exhibit.  `ainsert` overwrites in place, matching
  `HashMap::insert` / `Entry::and_modify`; `or_insert` on a missing key
  appends.
- Every external subsystem call (pool, consensus, execution, network,
  selector) is an explicit oracle parameter; fallible calls return `Except`.
  Each endpoint returns its result together with a call trace: the list of
  subsystem calls it performed, in order, so that "no collaborator was
  contacted" is the trace being empty.
-/

/-- A logical time slot: period and thread, as in `massa_models::Slot`. -/
structure Slot where
  period : Nat
  thread : Nat
deriving DecidableEq, Repr

/-- The error taxonomy of `ApiError` restricted to the variants produced by
`public.rs`. -/
inductive ApiError where
  | tooManyArguments (msg : String)
  | inconsistencyError (msg : String)
  | notFound
  | modelsError (msg : String)
  | sendChannelError (msg : String)
deriving DecidableEq, Repr

abbrev OperationId := Nat
abbrev EndorsementId := Nat
abbrev BlockId := Nat
abbrev Address := Nat
abbrev Operation := Nat
abbrev Endorsement := Nat
abbrev Block := Nat
abbrev Amount := Nat

/-- Association list lookup (the model of `HashMap::get`). -/
def alookup {α β : Type} [DecidableEq α] : List (α × β) → α → Option β
  | [], _ => none
  | p :: rest, k => if p.1 = k then some p.2 else alookup rest k

/-- Association list insert-or-overwrite (the model of `HashMap::insert`):
replaces the first binding of the key in place, otherwise appends. -/
def ainsert {α β : Type} [DecidableEq α] : List (α × β) → α → β → List (α × β)
  | [], k, v => [(k, v)]
  | p :: rest, k, v => if p.1 = k then (k, v) :: rest else p :: ainsert rest k v

/-- Association list removal of the first binding of a key
(the model of `HashMap::remove`'s effect on the map). -/
def aremove {α β : Type} [DecidableEq α] : List (α × β) → α → List (α × β)
  | [], _ => []
  | p :: rest, k => if p.1 = k then rest else p :: aremove rest k

/-- The keys of an association list. -/
def akeys {α β : Type} (l : List (α × β)) : List α := l.map Prod.fst

/-- `ops.into_iter().filter_map(|id| res.remove(&id)).collect()`:
walk the caller's identity list in order, each hit removing its record
from the map, misses being silently dropped. -/
def projectInOrder {α β : Type} [DecidableEq α] (res : List (α × β)) :
    List α → List β
  | [] => []
  | id :: rest =>
    match alookup res id with
    | some v => v :: projectInOrder (aremove res id) rest
    | none => projectInOrder res rest

/-- `massa_models::api::OperationInfo`. -/
structure OperationInfo where
  id : OperationId
  in_pool : Bool
  in_blocks : List BlockId
  is_final : Bool
  operation : Operation
deriving DecidableEq, Repr

/-- The consensus answer for one operation id
(`OperationSearchResult`): the operation, pool membership as seen by
consensus, and for each containing block its index and finality flag. -/
structure OperationSearchResult where
  op : Operation
  in_pool : Bool
  in_blocks : List (BlockId × (Nat × Bool))
deriving DecidableEq, Repr

/-- The record `get_operations` builds for an id found in the pool response:
`in_pool = true`, no blocks, not final. -/
def opInfoFromPool (id : OperationId) (op : Operation) : OperationInfo :=
  { id := id, in_pool := true, in_blocks := [], is_final := false,
    operation := op }

/-- The record `get_operations` builds from a consensus search result:
`in_blocks` are the keys of the consensus block map, `is_final` holds iff
some containing block is final. -/
def opInfoFromConsensus (id : OperationId) (s : OperationSearchResult) :
    OperationInfo :=
  { id := id, in_pool := s.in_pool,
    in_blocks := s.in_blocks.map Prod.fst,
    is_final := s.in_blocks.any (fun b => b.2.2),
    operation := s.op }

/-- Modelled from the spec: `OperationInfo::extend` lives in `massa-models`,
outside this repository's sources; per the spec's merge rule a record present
in both sources "is merged by OR-ing `in_pool`, unioning `in_blocks`, and
keeping `is_final` true if either side reports it", the identity and payload
staying those of the extended record. -/
def OperationInfo.extend (old new : OperationInfo) : OperationInfo :=
  { old with
    in_pool := old.in_pool || new.in_pool,
    in_blocks := old.in_blocks ++ new.in_blocks.filter (· ∉ old.in_blocks),
    is_final := old.is_final || new.is_final }

/-- One consensus entry folded into the merge map of `get_operations`:
`res.entry(op_id).and_modify(|old| old.extend(&new)).or_insert(new)`. -/
def mergeOpEntry (res : List (OperationId × OperationInfo))
    (p : OperationId × OperationSearchResult) :
    List (OperationId × OperationInfo) :=
  let search_new := opInfoFromConsensus p.1 p.2
  match alookup res p.1 with
  | some search_old => ainsert res p.1 (search_old.extend search_new)
  | none => res ++ [(p.1, search_new)]

/-- The merged map of `get_operations`: the pool response projected to
pool-records, then each consensus entry merged in by
`entry().and_modify(extend).or_insert`. -/
def mergedOps (poolResp : List (OperationId × Operation))
    (consensusResp : List (OperationId × OperationSearchResult)) :
    List (OperationId × OperationInfo) :=
  consensusResp.foldl mergeOpEntry
    (poolResp.map (fun p => (p.1, opInfoFromPool p.1 p.2)))

/-- `get_operations`: guard the batch size, query pool and consensus over the
id set, merge, then project back into the caller's order.  The two source
responses are oracle inputs; the trace records the subsystem calls made. -/
def getOperations (max_arguments : Nat)
    (poolResp : List (OperationId × Operation))
    (consensusResp : List (OperationId × OperationSearchResult))
    (ops : List OperationId) :
    Except ApiError (List OperationInfo) × List String :=
  if ops.length > max_arguments then
    (.error (.tooManyArguments "too many arguments"), [])
  else
    (.ok (projectInOrder (mergedOps poolResp consensusResp) ops),
     ["pool.get_operations", "consensus.get_operations"])

/-- `massa_models::api::EndorsementInfo`. -/
structure EndorsementInfo where
  id : EndorsementId
  in_pool : Bool
  in_blocks : List BlockId
  is_final : Bool
  endorsement : Endorsement
deriving DecidableEq, Repr

/-- One pool entry folded into the merge map of `get_endorsements`:
`res.entry(id).and_modify(|e| e.in_pool = true).or_insert(pool-only record)`. -/
def mergeEdEntry (res : List (EndorsementId × EndorsementInfo))
    (p : EndorsementId × Endorsement) :
    List (EndorsementId × EndorsementInfo) :=
  match alookup res p.1 with
  | some old => ainsert res p.1 { old with in_pool := true }
  | none =>
    res ++ [(p.1,
      { id := p.1, in_pool := true, in_blocks := [], is_final := false,
        endorsement := p.2 })]

/-- The merged map of `get_endorsements`: start from the consensus response,
then for each pool entry either flip `in_pool` on the existing record or
insert a fresh pool-only record. -/
def mergedEds (consensusResp : List (EndorsementId × EndorsementInfo))
    (poolResp : List (EndorsementId × Endorsement)) :
    List (EndorsementId × EndorsementInfo) :=
  poolResp.foldl mergeEdEntry consensusResp

/-- `get_endorsements`: guard the batch size, query consensus then pool over
the id set, merge, and return `res.values()` — the merged map's iteration
order, with no reordering by the caller's list. -/
def getEndorsements (max_arguments : Nat)
    (consensusResp : List (EndorsementId × EndorsementInfo))
    (poolResp : List (EndorsementId × Endorsement))
    (eds : List EndorsementId) :
    Except ApiError (List EndorsementInfo) × List String :=
  if eds.length > max_arguments then
    (.error (.tooManyArguments "too many arguments"), [])
  else
    (.ok ((mergedEds consensusResp poolResp).map Prod.snd),
     ["consensus.get_endorsements_by_id", "pool.get_endorsements_by_id"])

example :
    (getOperations 10 [(5, 50)] [(7, ⟨70, false, [(3, (0, true))]⟩)] [7, 5, 9]).1
      = .ok [⟨7, false, [3], true, 70⟩, ⟨5, true, [], false, 50⟩] := by
  rfl

example :
    (getEndorsements 10 [(2, ⟨2, false, [4], true, 20⟩), (1, ⟨1, false, [], false, 10⟩)]
      [] [1, 2]).1
      = .ok [⟨2, false, [4], true, 20⟩, ⟨1, false, [], false, 10⟩] := by
  rfl

/-- One execution stack frame (`ExecutionStackElement`). -/
structure ExecutionStackElement where
  address : Address
  coins : Amount
  owned_addresses : List Address
deriving DecidableEq, Repr

/-- The target of a read-only execution request. -/
inductive ReadOnlyExecutionTarget where
  | bytecodeExecution (bytecode : List Nat)
  | functionCall (target_func : String) (target_addr : Address)
      (parameter : String)
deriving DecidableEq, Repr

/-- `ReadOnlyExecutionRequest` as handed to the execution controller. -/
structure ReadOnlyExecutionRequest where
  max_gas : Nat
  simulated_gas_price : Amount
  target : ReadOnlyExecutionTarget
  call_stack : List ExecutionStackElement
deriving DecidableEq, Repr

/-- A successful execution output: the slot execution nominally ran at, and
the emitted events. -/
structure ExecutionOutput where
  slot : Slot
  events : List Nat
deriving DecidableEq, Repr

/-- `massa_models::execution::ReadOnlyResult`. -/
inductive ReadOnlyResult where
  | ok
  | error (msg : String)
deriving DecidableEq, Repr

/-- `ExecuteReadOnlyResponse`. -/
structure ExecuteReadOnlyResponse where
  executed_at : Slot
  result : ReadOnlyResult
  output_events : List Nat
deriving DecidableEq, Repr

/-- The uniform failure-to-value mapping of both read-only endpoints: a
subsystem failure becomes slot `(0,0)`, an error-tagged result carrying the
message, and no events; a success passes slot, `Ok` and events through. -/
def mapExecResult (r : Except String ExecutionOutput) :
    ExecuteReadOnlyResponse :=
  match r with
  | .error err =>
    { executed_at := ⟨0, 0⟩,
      result := .error ("readonly call failed: " ++ err),
      output_events := [] }
  | .ok v =>
    { executed_at := v.slot, result := .ok, output_events := v.events }

/-- `ReadOnlyBytecodeExecution` input item. -/
structure ReadOnlyBytecodeExecution where
  max_gas : Nat
  address : Option Address
  simulated_gas_price : Amount
  bytecode : List Nat
deriving DecidableEq, Repr

/-- Request translation for `execute_read_only_bytecode`: a single-frame call
stack at the supplied address, or at a freshly generated one (`gen i`, the
random-address oracle at position `i`) when none is supplied. -/
def buildBytecodeReq (gen : Nat → Address) (i : Nat)
    (r : ReadOnlyBytecodeExecution) : ReadOnlyExecutionRequest :=
  let address := r.address.getD (gen i)
  { max_gas := r.max_gas, simulated_gas_price := r.simulated_gas_price,
    target := .bytecodeExecution r.bytecode,
    call_stack := [⟨address, 0, [address]⟩] }

/-- Map a function receiving the element index over a list, starting at
index `i` (the model of the sequential `for` loop over the batch). -/
def enumMapFrom {α β : Type} (f : Nat → α → β) : Nat → List α → List β
  | _, [] => []
  | i, a :: rest => f i a :: enumMapFrom f (i + 1) rest

/-- `execute_read_only_bytecode`: guard the batch size, then sequentially
translate each request, invoke the execution oracle, and map failures to
error-valued responses; the overall call succeeds. -/
def executeReadOnlyBytecode (max_arguments : Nat) (gen : Nat → Address)
    (exec : ReadOnlyExecutionRequest → Except String ExecutionOutput)
    (reqs : List ReadOnlyBytecodeExecution) :
    Except ApiError (List ExecuteReadOnlyResponse) × List String :=
  if reqs.length > max_arguments then
    (.error (.tooManyArguments "too many arguments"), [])
  else
    (.ok (enumMapFrom
        (fun i r => mapExecResult (exec (buildBytecodeReq gen i r))) 0 reqs),
     reqs.map (fun _ => "execution.execute_readonly_request"))

/-- `ReadOnlyCall` input item. -/
structure ReadOnlyCall where
  max_gas : Nat
  simulated_gas_price : Amount
  target_address : Address
  target_function : String
  parameter : String
  caller_address : Option Address
deriving DecidableEq, Repr

/-- Request translation for `execute_read_only_call`: a two-frame call stack,
caller frame (supplied or freshly generated address) then target frame. -/
def buildCallReq (gen : Nat → Address) (i : Nat) (r : ReadOnlyCall) :
    ReadOnlyExecutionRequest :=
  let caller := r.caller_address.getD (gen i)
  { max_gas := r.max_gas, simulated_gas_price := r.simulated_gas_price,
    target := .functionCall r.target_function r.target_address r.parameter,
    call_stack := [⟨caller, 0, [caller]⟩,
                   ⟨r.target_address, 0, [r.target_address]⟩] }

/-- `execute_read_only_call`: same batching, guard and failure-to-value
mapping as `execute_read_only_bytecode`, with the two-frame call stack. -/
def executeReadOnlyCall (max_arguments : Nat) (gen : Nat → Address)
    (exec : ReadOnlyExecutionRequest → Except String ExecutionOutput)
    (reqs : List ReadOnlyCall) :
    Except ApiError (List ExecuteReadOnlyResponse) × List String :=
  if reqs.length > max_arguments then
    (.error (.tooManyArguments "too many arguments"), [])
  else
    (.ok (enumMapFrom
        (fun i r => mapExecResult (exec (buildCallReq gen i r))) 0 reqs),
     reqs.map (fun _ => "execution.execute_readonly_request"))

/-- A clique as reported by the consensus authority. -/
structure Clique where
  block_ids : List BlockId
  is_blockclique : Bool
deriving DecidableEq, Repr

/-- `massa_graph::DiscardReason`. -/
inductive DiscardReason where
  | invalid (msg : String)
  | stale
  | final
deriving DecidableEq, Repr

/-- `massa_graph::ExportBlockStatus`. -/
inductive ExportBlockStatus where
  | active (block : Block)
  | incoming
  | waitingForSlot
  | waitingForDependencies
  | discarded (reason : DiscardReason)
  | final (block : Block)
deriving DecidableEq, Repr

/-- `BlockInfoContent`. -/
structure BlockInfoContent where
  is_final : Bool
  is_stale : Bool
  is_in_blockclique : Bool
  block : Block
deriving DecidableEq, Repr

/-- `BlockInfo`: the requested id, and content when the block resolves. -/
structure BlockInfo where
  id : BlockId
  content : Option BlockInfoContent
deriving DecidableEq, Repr

/-- `get_block`: find the first clique marked blockclique (error when none),
fetch the block status, and classify — active and final statuses carry
content, every other status yields empty content with the id echoed. -/
def getBlock (cliques : List Clique) (status : Option ExportBlockStatus)
    (id : BlockId) : Except ApiError BlockInfo :=
  match cliques.find? (fun c => c.is_blockclique) with
  | none => .error (.inconsistencyError "Missing block clique")
  | some blockclique =>
    match (match status with
           | some (.active block) => some (block, false)
           | some .incoming => none
           | some .waitingForSlot => none
           | some .waitingForDependencies => none
           | some (.discarded _) => none
           | some (.final block) => some (block, true)
           | none => none) with
    | some (block, is_final) =>
      .ok { id := id,
            content := some
              { is_final := is_final, is_stale := false,
                is_in_blockclique := blockclique.block_ids.contains id,
                block := block } }
    | none => .ok { id := id, content := none }

/-- A block header's content: slot and parent ids. -/
structure BlockHeaderContent where
  slot : Slot
  parents : List BlockId
deriving DecidableEq, Repr

/-- A block header with its creator address. -/
structure BlockHeader where
  content : BlockHeaderContent
  creator_address : Address
deriving DecidableEq, Repr

/-- An active block of a graph export, restricted to the fields
`get_graph_interval` reads. -/
structure ExportedActiveBlock where
  is_final : Bool
  header : BlockHeader
deriving DecidableEq, Repr

/-- The bounded graph export returned by
`consensus.get_block_graph_status(start, end)`. -/
structure BlockGraphExport where
  active_blocks : List (BlockId × ExportedActiveBlock)
  discarded_blocks : List (BlockId × (DiscardReason × BlockHeader))
  max_cliques : List Clique
deriving DecidableEq, Repr

/-- `BlockSummary`. -/
structure BlockSummary where
  id : BlockId
  is_final : Bool
  is_stale : Bool
  is_in_blockclique : Bool
  slot : Slot
  creator : Address
  parents : List BlockId
deriving DecidableEq, Repr

/-- The summary `get_graph_interval` emits for an active block. -/
def summaryOfActive (blockclique : Clique)
    (p : BlockId × ExportedActiveBlock) : BlockSummary :=
  { id := p.1, is_final := p.2.is_final, is_stale := false,
    is_in_blockclique := blockclique.block_ids.contains p.1,
    slot := p.2.header.content.slot,
    creator := p.2.header.creator_address,
    parents := p.2.header.content.parents }

/-- The summary `get_graph_interval` emits for a stale-discarded block. -/
def summaryOfStale (p : BlockId × (DiscardReason × BlockHeader)) :
    BlockSummary :=
  { id := p.1, is_final := false, is_stale := true,
    is_in_blockclique := false,
    slot := p.2.2.content.slot,
    creator := p.2.2.creator_address,
    parents := p.2.2.content.parents }

/-- `get_graph_interval` after the graph export has been fetched: find the
first clique marked blockclique (error when none), emit one summary per
active block, then one per discarded block whose reason is exactly
`Stale`. -/
def getGraphInterval (graph : BlockGraphExport) :
    Except ApiError (List BlockSummary) :=
  match graph.max_cliques.find? (fun c => c.is_blockclique) with
  | none => .error (.inconsistencyError "missing blockclique")
  | some blockclique =>
    .ok (graph.active_blocks.map (summaryOfActive blockclique)
      ++ (graph.discarded_blocks.filter
            (fun p => p.2.1 = DiscardReason.stale)).map summaryOfStale)

/-- The consensus configuration fields the handlers read. -/
structure ConsensusConfig where
  thread_count : Nat
  periods_per_cycle : Nat
deriving DecidableEq, Repr

/-- Modelled from the spec: `Slot::get_cycle` lives in `massa-models`,
outside this repository's sources; per the spec's clock contract,
`cycle(period) = period / periods_per_cycle` (integer division). -/
def Slot.get_cycle (s : Slot) (periods_per_cycle : Nat) : Nat :=
  s.period / periods_per_cycle

/-- Modelled from the spec: `Slot::get_next_slot` lives in `massa-models`,
outside this repository's sources; the next slot is the successor in
(period, thread) order at the given thread count, failing on period
overflow of the 64-bit counter. -/
def Slot.get_next_slot (s : Slot) (thread_count : Nat) :
    Except ApiError Slot :=
  if s.thread + 1 ≥ thread_count then
    if s.period + 1 < 2 ^ 64 then .ok ⟨s.period + 1, 0⟩
    else .error (.modelsError "period overflow")
  else .ok ⟨s.period, s.thread + 1⟩

/-- The slot used as "current" by `get_status`, `get_stakers` and
`get_addresses`: the latest elapsed block slot, falling back to slot
`(0,0)` when none has elapsed yet. -/
def currSlotOf (last_slot : Option Slot) : Slot := last_slot.getD ⟨0, 0⟩

/-- The `NodeStatus` fields built by `get_status` (statistics and peer data
pass through as opaque payloads). -/
structure NodeStatus where
  node_id : Nat
  current_time : Nat
  connected_nodes : List (Nat × (Nat × Bool))
  last_slot : Option Slot
  next_slot : Slot
  consensus_stats : Nat
  network_stats : Nat
  pool_stats : Nat
  current_cycle : Nat
deriving DecidableEq, Repr

/-- `get_status`: assemble the snapshot from the (oracle) subsystem
statistics and the latest-block-slot computation; `next_slot` and
`current_cycle` fall back to slot `(0,0)` when no slot has elapsed. -/
def getStatus (cfg : ConsensusConfig) (node_id now : Nat)
    (last_slot : Option Slot)
    (consensus_stats network_stats pool_stats : Nat)
    (peers : List (Nat × (Nat × Bool))) :
    Except ApiError NodeStatus :=
  match (currSlotOf last_slot).get_next_slot cfg.thread_count with
  | .error e => .error e
  | .ok next_slot =>
    .ok { node_id := node_id, current_time := now,
          connected_nodes := peers,
          last_slot := last_slot, next_slot := next_slot,
          consensus_stats := consensus_stats,
          network_stats := network_stats, pool_stats := pool_stats,
          current_cycle :=
            (currSlotOf last_slot).get_cycle cfg.periods_per_cycle }

/-- Stable insertion of a pair into a list sorted by the second component
(helper for the model of `sort_by_key`). -/
def insertByRolls (p : Address × Nat) :
    List (Address × Nat) → List (Address × Nat)
  | [] => [p]
  | q :: rest =>
    if p.2 < q.2 then p :: q :: rest else q :: insertByRolls p rest

/-- Stable sort by roll count, the model of
`staker_vec.sort_by_key(|(_, rolls)| *rolls)`. -/
def sortByRolls (l : List (Address × Nat)) : List (Address × Nat) :=
  l.foldr insertByRolls []

/-- `get_stakers`: compute the current cycle (with the `(0,0)` fallback) and
return the execution engine's cycle roll distribution sorted ascending by
roll count. -/
def getStakers (cfg : ConsensusConfig) (last_slot : Option Slot)
    (cycle_rolls : Nat → List (Address × Nat)) :
    Except ApiError (List (Address × Nat)) :=
  .ok (sortByRolls
    (cycle_rolls ((currSlotOf last_slot).get_cycle cfg.periods_per_cycle)))

/-- `OperationInput`: signature, creator public key and serialized body as
raw byte lists. -/
structure OperationInput where
  signature : List Nat
  creator_public_key : List Nat
  serialized_content : List Nat
deriving DecidableEq, Repr

/-- The canonical wire form rebuilt by `send_operations`: signature bytes,
then creator public key bytes, then the serialized body. -/
def opWireForm (inp : OperationInput) : List Nat :=
  inp.signature ++ inp.creator_public_key ++ inp.serialized_content

/-- The per-item step of `send_operations`: rebuild the canonical wire form,
deserialize it (oracle), require the whole buffer be consumed, then verify
integrity (oracle) to derive the identity. -/
def sendOpStep (deser : List Nat → Except String (List Nat × Operation))
    (verify : Operation → Except String OperationId)
    (inp : OperationInput) : Except ApiError (OperationId × Operation) :=
  match deser (opWireForm inp) with
  | .error err => .error (.modelsError err)
  | .ok (rest, op) =>
    if rest.isEmpty then
      match verify op with
      | .ok id => .ok (id, op)
      | .error err => .error (.modelsError err)
    else
      .error (.modelsError
        "There is data left after operation deserialization")

/-- The model of `collect::<Result<_, _>>()` over a fallible per-item step:
stop at the first failing item, otherwise return all successes in order. -/
def collectSteps {α β : Type} (f : α → Except ApiError β) :
    List α → Except ApiError (List β)
  | [] => .ok []
  | a :: rest =>
    match f a with
    | .error e => .error e
    | .ok b =>
      match collectSteps f rest with
      | .error e => .error e
      | .ok bs => .ok (b :: bs)

/-- `send_operations`: guard the batch size, process every operation through
`sendOpStep` all-or-nothing, deduplicate by identity into a map (last write
wins), submit the map to the pool and return its keys. -/
def sendOperations (max_arguments : Nat)
    (deser : List Nat → Except String (List Nat × Operation))
    (verify : Operation → Except String OperationId)
    (add_operations : List (OperationId × Operation) → Except String Unit)
    (ops : List OperationInput) :
    Except ApiError (List OperationId) × List String :=
  if ops.length > max_arguments then
    (.error (.tooManyArguments "too many arguments"), [])
  else
    match collectSteps (sendOpStep deser verify) ops with
    | .error e => (.error e, [])
    | .ok pairs =>
      let to_send := pairs.foldl (fun m p => ainsert m p.1 p.2) []
      let ids := akeys to_send
      (match add_operations to_send with
       | .ok _ => .ok ids
       | .error err => .error (.sendChannelError err),
       ["pool.add_operations"])

/-- Per-address ledger/roll state as returned by
`consensus.get_addresses_info` (payloads opaque). -/
structure AddressState where
  ledger_info : Nat
  rolls : Nat
  production_stats : Nat
deriving DecidableEq, Repr

/-- Modelled from the spec: `Address::get_thread` lives in `massa-models`,
outside this repository's sources; the thread index is derived from the
address and the thread-count configuration. -/
def Address.get_thread (a : Address) (thread_count : Nat) : Nat :=
  a % thread_count

/-- The subsystem oracles `get_addresses` consults. -/
structure AddrOracles where
  addresses_info :
    List Address → Except ApiError (List (Address × AddressState))
  blocks_by_creator : Address → Except ApiError (List BlockId)
  pool_ops_by_addr : Address → Except ApiError (List OperationId)
  consensus_ops_by_addr : Address → Except ApiError (List OperationId)
  pool_eds_by_addr : Address → Except ApiError (List EndorsementId)
  consensus_eds_by_addr : Address → Except ApiError (List EndorsementId)
  parallel_balance : Address → (Option Amount × Option Amount)
  datastore_keys : Address → (List (List Nat) × List (List Nat))
  selections : Address → Slot → Slot → (List Slot × List Slot)

/-- What one per-address concurrent getter task returns. -/
structure AddrGathered where
  addr : Address
  blocks : List BlockId
  operations : List OperationId
  endorsements : List EndorsementId
  final_balance : Option Amount
  candidate_balance : Option Amount
  final_keys : List (List Nat)
  candidate_keys : List (List Nat)
deriving DecidableEq, Repr

/-- One per-address concurrent getter task: authored blocks, pool and
consensus operation involvement (unioned), pool and consensus endorsement
involvement (unioned), balances and datastore keys; any sub-query failure
fails the task. -/
def addrTask (o : AddrOracles) (address : Address) :
    Except ApiError AddrGathered := do
  let blocks ← o.blocks_by_creator address
  let pool_ops ← o.pool_ops_by_addr address
  let consensus_ops ← o.consensus_ops_by_addr address
  let pool_eds ← o.pool_eds_by_addr address
  let consensus_eds ← o.consensus_eds_by_addr address
  let balances := o.parallel_balance address
  let keys := o.datastore_keys address
  .ok { addr := address, blocks := blocks,
        operations := (pool_ops ++ consensus_ops).dedup,
        endorsements := (pool_eds ++ consensus_eds).dedup,
        final_balance := balances.1, candidate_balance := balances.2,
        final_keys := keys.1, candidate_keys := keys.2 }

/-- The seven accumulation maps the collection loop populates, keyed by
address. -/
structure GatherMaps where
  blocks : List (Address × List BlockId)
  operations : List (Address × List OperationId)
  endorsements : List (Address × List EndorsementId)
  final_balance : List (Address × Option Amount)
  candidate_balance : List (Address × Option Amount)
  final_keys : List (Address × List (List Nat))
  candidate_keys : List (Address × List (List Nat))

/-- The empty accumulation maps. -/
def emptyGatherMaps : GatherMaps := ⟨[], [], [], [], [], [], []⟩

/-- Insert one completed task's results into all seven maps. -/
def insertGathered (m : GatherMaps) (g : AddrGathered) : GatherMaps :=
  { blocks := ainsert m.blocks g.addr g.blocks,
    operations := ainsert m.operations g.addr g.operations,
    endorsements := ainsert m.endorsements g.addr g.endorsements,
    final_balance := ainsert m.final_balance g.addr g.final_balance,
    candidate_balance := ainsert m.candidate_balance g.addr g.candidate_balance,
    final_keys := ainsert m.final_keys g.addr g.final_keys,
    candidate_keys := ainsert m.candidate_keys g.addr g.candidate_keys }

/-- Remove an address's entry from all seven maps. -/
def removeGathered (m : GatherMaps) (a : Address) : GatherMaps :=
  { blocks := aremove m.blocks a,
    operations := aremove m.operations a,
    endorsements := aremove m.endorsements a,
    final_balance := aremove m.final_balance a,
    candidate_balance := aremove m.candidate_balance a,
    final_keys := aremove m.final_keys a,
    candidate_keys := aremove m.candidate_keys a }

/-- The composite `AddressInfo` record. -/
structure AddressInfo where
  address : Address
  thread : Nat
  ledger_info : Nat
  rolls : Nat
  block_draws : List Slot
  endorsement_draws : List Slot
  blocks_created : List BlockId
  involved_in_endorsements : List EndorsementId
  involved_in_operations : List OperationId
  production_stats : Nat
  final_balance_info : Option Amount
  candidate_balance_info : Option Amount
  final_datastore_keys : List (List Nat)
  candidate_datastore_keys : List (List Nat)
deriving DecidableEq, Repr

/-- `Option::ok_or(ApiError::NotFound)`. -/
def okOrNotFound {β : Type} : Option β → Except ApiError β
  | some v => .ok v
  | none => .error ApiError.notFound

/-- The final per-address compile loop of `get_addresses`: walk the caller's
addresses in order, removing each address's sub-results from the state map
and the seven accumulation maps; a missing sub-result is a fatal `NotFound`;
the selector is asked for draws over `[curr_slot, end_slot)`. -/
def compileLoop (cfg : ConsensusConfig)
    (sel : Address → Slot → Slot → (List Slot × List Slot))
    (curr_slot end_slot : Slot)
    (states : List (Address × AddressState)) (m : GatherMaps) :
    List Address → Except ApiError (List AddressInfo)
  | [] => .ok []
  | address :: rest => do
    let state ← okOrNotFound (alookup states address)
    let draws := sel address curr_slot end_slot
    let blocks_created ← okOrNotFound (alookup m.blocks address)
    let involved_eds ← okOrNotFound (alookup m.endorsements address)
    let involved_ops ← okOrNotFound (alookup m.operations address)
    let final_balance ← okOrNotFound (alookup m.final_balance address)
    let candidate_balance ← okOrNotFound (alookup m.candidate_balance address)
    let final_keys ← okOrNotFound (alookup m.final_keys address)
    let candidate_keys ← okOrNotFound (alookup m.candidate_keys address)
    let info : AddressInfo :=
      { address := address,
        thread := address.get_thread cfg.thread_count,
        ledger_info := state.ledger_info, rolls := state.rolls,
        block_draws := draws.1, endorsement_draws := draws.2,
        blocks_created := blocks_created,
        involved_in_endorsements := involved_eds,
        involved_in_operations := involved_ops,
        production_stats := state.production_stats,
        final_balance_info := final_balance,
        candidate_balance_info := candidate_balance,
        final_datastore_keys := final_keys,
        candidate_datastore_keys := candidate_keys }
    let rest_infos ← compileLoop cfg sel curr_slot end_slot
      (aremove states address) (removeGathered m address) rest
    .ok (info :: rest_infos)

/-- `get_addresses`: guard the batch size, fetch roll/balance state for the
whole batch, run the per-address getter tasks (fail-fast), accumulate their
results into address-keyed maps, then compile one composite record per
caller address in input order. -/
def getAddresses (max_arguments draw_lookahead_period_count : Nat)
    (cfg : ConsensusConfig) (last_slot : Option Slot) (o : AddrOracles)
    (addresses : List Address) :
    Except ApiError (List AddressInfo) × List String :=
  if addresses.length > max_arguments then
    (.error (.tooManyArguments "too many arguments"), [])
  else
    match o.addresses_info addresses with
    | .error e => (.error e, ["consensus.get_addresses_info"])
    | .ok states =>
      match collectSteps (addrTask o) addresses with
      | .error e =>
        (.error e, ["consensus.get_addresses_info", "per_address_getters"])
      | .ok gathered =>
        let m := gathered.foldl insertGathered emptyGatherMaps
        let curr_slot := currSlotOf last_slot
        let end_slot : Slot :=
          ⟨curr_slot.period + draw_lookahead_period_count, curr_slot.thread⟩
        (compileLoop cfg o.selections curr_slot end_slot states m addresses,
         ["consensus.get_addresses_info", "per_address_getters",
          "selector.get_address_selections"])

theorem alookup_append_of_some {α β : Type} [DecidableEq α]
    {l : List (α × β)} {k : α} {v : β} (l' : List (α × β))
    (h : alookup l k = some v) : alookup (l ++ l') k = some v := by
  induction l with
  | nil => simp [alookup] at h
  | cons p rest ih =>
    simp only [alookup, List.cons_append] at h ⊢
    by_cases hp : p.1 = k
    · simpa [hp] using h
    · simp only [hp, if_false] at h ⊢
      exact ih h

theorem alookup_append_of_none {α β : Type} [DecidableEq α]
    {l : List (α × β)} {k : α} (l' : List (α × β))
    (h : alookup l k = none) : alookup (l ++ l') k = alookup l' k := by
  induction l with
  | nil => simp [alookup]
  | cons p rest ih =>
    simp only [alookup, List.cons_append] at h ⊢
    by_cases hp : p.1 = k
    · simp [hp] at h
    · simp only [hp, if_false] at h ⊢
      exact ih h

theorem alookup_ainsert_self {α β : Type} [DecidableEq α]
    (l : List (α × β)) (k : α) (v : β) : alookup (ainsert l k v) k = some v := by
  induction l with
  | nil => simp [ainsert, alookup]
  | cons p rest ih =>
    simp only [ainsert]
    by_cases hp : p.1 = k
    · simp [hp, alookup]
    · simp [hp, alookup, ih]

theorem alookup_ainsert_ne {α β : Type} [DecidableEq α]
    (l : List (α × β)) {k k' : α} (v : β) (h : k' ≠ k) :
    alookup (ainsert l k v) k' = alookup l k' := by
  have hk : ¬k = k' := fun hh => h hh.symm
  induction l with
  | nil => simp [ainsert, alookup, hk]
  | cons p rest ih =>
    by_cases hp : p.1 = k
    · have hp' : ¬p.1 = k' := by rw [hp]; exact hk
      simp [ainsert, if_pos hp, alookup, hk, hp']
    · simp [ainsert, if_neg hp, alookup, ih]

theorem alookup_aremove_ne {α β : Type} [DecidableEq α]
    (l : List (α × β)) {k k' : α} (h : k' ≠ k) :
    alookup (aremove l k) k' = alookup l k' := by
  have hk : ¬k = k' := fun hh => h hh.symm
  induction l with
  | nil => simp [aremove]
  | cons p rest ih =>
    by_cases hp : p.1 = k
    · have hp' : ¬p.1 = k' := by rw [hp]; exact hk
      simp [aremove, if_pos hp, alookup, hp']
    · simp [aremove, if_neg hp, alookup, ih]

theorem alookup_eq_none_iff {α β : Type} [DecidableEq α]
    (l : List (α × β)) (k : α) : alookup l k = none ↔ k ∉ akeys l := by
  induction l with
  | nil => simp [alookup, akeys]
  | cons p rest ih =>
    by_cases hp : p.1 = k
    · simp [alookup, if_pos hp, akeys, hp]
    · have hp' : ¬k = p.1 := fun hh => hp hh.symm
      simp only [alookup, if_neg hp, akeys, List.map_cons, List.mem_cons]
      rw [show (k ∉ akeys rest) = (¬k ∈ rest.map Prod.fst) from rfl] at ih
      simp [hp', ih]

theorem isSome_alookup_ainsert {α β : Type} [DecidableEq α]
    (l : List (α × β)) (k k' : α) (v : β) (h : (alookup l k').isSome) :
    (alookup (ainsert l k v) k').isSome := by
  by_cases hk : k' = k
  · subst hk
    simp [alookup_ainsert_self]
  · rwa [alookup_ainsert_ne l v hk]

/-- C3: every batched endpoint — both read-only execution endpoints,
`get_operations`, `get_endorsements`, `get_addresses` and `send_operations`
— rejects an input batch longer than the configured `max_arguments` with a
`TooManyArguments` error and an empty subsystem call trace: no pool,
consensus, execution, network or selector call is traced. -/
theorem C3_too_many_arguments_guard :
    (∀ (maxA : Nat) (gen : Nat → Address)
       (exec : ReadOnlyExecutionRequest → Except String ExecutionOutput)
       (reqs : List ReadOnlyBytecodeExecution), reqs.length > maxA →
       executeReadOnlyBytecode maxA gen exec reqs
         = (.error (.tooManyArguments "too many arguments"), []))
  ∧ (∀ (maxA : Nat) (gen : Nat → Address)
       (exec : ReadOnlyExecutionRequest → Except String ExecutionOutput)
       (reqs : List ReadOnlyCall), reqs.length > maxA →
       executeReadOnlyCall maxA gen exec reqs
         = (.error (.tooManyArguments "too many arguments"), []))
  ∧ (∀ (maxA : Nat) poolResp consensusResp (ops : List OperationId),
       ops.length > maxA →
       getOperations maxA poolResp consensusResp ops
         = (.error (.tooManyArguments "too many arguments"), []))
  ∧ (∀ (maxA : Nat) consensusResp poolResp (eds : List EndorsementId),
       eds.length > maxA →
       getEndorsements maxA consensusResp poolResp eds
         = (.error (.tooManyArguments "too many arguments"), []))
  ∧ (∀ (maxA la : Nat) (cfg : ConsensusConfig) (last_slot : Option Slot)
       (o : AddrOracles) (addresses : List Address),
       addresses.length > maxA →
       getAddresses maxA la cfg last_slot o addresses
         = (.error (.tooManyArguments "too many arguments"), []))
  ∧ (∀ (maxA : Nat) deser verify add_operations (ops : List OperationInput),
       ops.length > maxA →
       sendOperations maxA deser verify add_operations ops
         = (.error (.tooManyArguments "too many arguments"), [])) := by
  refine ⟨?_, ?_, ?_, ?_, ?_, ?_⟩
  · intro maxA gen exec reqs h
    simp only [executeReadOnlyBytecode, if_pos h]
  · intro maxA gen exec reqs h
    simp only [executeReadOnlyCall, if_pos h]
  · intro maxA poolResp consensusResp ops h
    simp only [getOperations, if_pos h]
  · intro maxA consensusResp poolResp eds h
    simp only [getEndorsements, if_pos h]
  · intro maxA la cfg last_slot o addresses h
    simp only [getAddresses, if_pos h]
  · intro maxA deser verify add_operations ops h
    simp only [sendOperations, if_pos h]

/-- A trivial set of subsystem oracles used to instantiate witnesses. -/
def trivialOracles : AddrOracles :=
  { addresses_info := fun _ => .ok [],
    blocks_by_creator := fun _ => .ok [],
    pool_ops_by_addr := fun _ => .ok [],
    consensus_ops_by_addr := fun _ => .ok [],
    pool_eds_by_addr := fun _ => .ok [],
    consensus_eds_by_addr := fun _ => .ok [],
    parallel_balance := fun _ => (none, none),
    datastore_keys := fun _ => ([], []),
    selections := fun _ _ _ => ([], []) }

/-- Witness for C3: each endpoint at `max_arguments = 0` with a singleton
batch rejects with `TooManyArguments` and an empty trace. -/
theorem C3_too_many_arguments_guard_witness :
    executeReadOnlyBytecode 0 (fun _ => 0) (fun _ => .error "") [⟨0, none, 0, []⟩]
      = (.error (.tooManyArguments "too many arguments"), [])
  ∧ executeReadOnlyCall 0 (fun _ => 0) (fun _ => .error "")
      [⟨0, 0, 0, "", "", none⟩]
      = (.error (.tooManyArguments "too many arguments"), [])
  ∧ getOperations 0 [] [] [1]
      = (.error (.tooManyArguments "too many arguments"), [])
  ∧ getEndorsements 0 [] [] [1]
      = (.error (.tooManyArguments "too many arguments"), [])
  ∧ getAddresses 0 0 ⟨1, 1⟩ none trivialOracles [1]
      = (.error (.tooManyArguments "too many arguments"), [])
  ∧ sendOperations 0 (fun _ => .error "") (fun _ => .error "")
      (fun _ => .ok ()) [⟨[], [], []⟩]
      = (.error (.tooManyArguments "too many arguments"), []) :=
  ⟨C3_too_many_arguments_guard.1 0 _ _ _ (by decide),
   C3_too_many_arguments_guard.2.1 0 _ _ _ (by decide),
   C3_too_many_arguments_guard.2.2.1 0 [] [] [1] (by decide),
   C3_too_many_arguments_guard.2.2.2.1 0 [] [] [1] (by decide),
   C3_too_many_arguments_guard.2.2.2.2.1 0 0 ⟨1, 1⟩ none trivialOracles [1]
     (by decide),
   C3_too_many_arguments_guard.2.2.2.2.2 0 _ _ _ [⟨[], [], []⟩] (by decide)⟩

/-- Counterexample to C5: the consensus authority reports two cliques both
marked as blockclique, yet `get_block` does not fail — it silently uses the
first marked clique and answers `Ok` (here with empty content, the block
status being unknown).  The claim that two or more marked cliques cause an
`InconsistencyError` is therefore false. -/
theorem C5_two_blockcliques_no_error :
    getBlock [⟨[], true⟩, ⟨[], true⟩] none 7 = .ok ⟨7, none⟩ := rfl

/-- C5 (amended): `get_block` — and likewise `get_graph_interval` — fails
with an `InconsistencyError` iff NO clique of the reported clique set is
marked blockclique; when two or more cliques are marked, the first marked
one is silently used and the request does not fail for that reason. -/
theorem C5_inconsistency_iff_no_blockclique
    (cliques : List Clique) (status : Option ExportBlockStatus)
    (id : BlockId) (graph : BlockGraphExport) :
    ((∃ msg, getBlock cliques status id = .error (.inconsistencyError msg))
       ↔ ∀ c ∈ cliques, c.is_blockclique = false)
  ∧ ((∃ msg, getGraphInterval graph = .error (.inconsistencyError msg))
       ↔ ∀ c ∈ graph.max_cliques, c.is_blockclique = false) := by
  constructor
  · cases hf : cliques.find? (fun c => c.is_blockclique) with
    | none =>
      constructor
      · intro _ c hc
        have := List.find?_eq_none.mp hf c hc
        simpa using this
      · intro _
        exact ⟨"Missing block clique", by simp [getBlock, hf]⟩
    | some bc =>
      constructor
      · intro ⟨msg, hmsg⟩
        exfalso
        simp only [getBlock, hf] at hmsg
        rcases status with _ | s
        · simp at hmsg
        · cases s <;> simp at hmsg
      · intro hall
        exfalso
        have hmem := List.mem_of_find?_eq_some hf
        have hpred := List.find?_some hf
        have := hall bc hmem
        simp [this] at hpred
  · cases hf : graph.max_cliques.find? (fun c => c.is_blockclique) with
    | none =>
      constructor
      · intro _ c hc
        have := List.find?_eq_none.mp hf c hc
        simpa using this
      · intro _
        exact ⟨"missing blockclique", by simp [getGraphInterval, hf]⟩
    | some bc =>
      constructor
      · intro ⟨msg, hmsg⟩
        simp [getGraphInterval, hf] at hmsg
      · intro hall
        exfalso
        have hmem := List.mem_of_find?_eq_some hf
        have hpred := List.find?_some hf
        have := hall bc hmem
        simp [this] at hpred

/-- C9: with a blockclique located, `get_block` classifies the consensus
status as the claim states: Active carries content with `is_final = false`,
Final carries content with `is_final = true` (both tagging blockclique
membership), and Incoming, WaitingForSlot, WaitingForDependencies,
Discarded and unknown statuses all yield an `Ok` response with empty
content in which the requested identity is echoed back. -/
theorem C9_get_block_classification (cliques : List Clique) (bc : Clique)
    (hbc : cliques.find? (fun c => c.is_blockclique) = some bc)
    (id : BlockId) (b : Block) (r : DiscardReason) :
    getBlock cliques (some (.active b)) id
      = .ok ⟨id, some ⟨false, false, bc.block_ids.contains id, b⟩⟩
  ∧ getBlock cliques (some (.final b)) id
      = .ok ⟨id, some ⟨true, false, bc.block_ids.contains id, b⟩⟩
  ∧ getBlock cliques (some .incoming) id = .ok ⟨id, none⟩
  ∧ getBlock cliques (some .waitingForSlot) id = .ok ⟨id, none⟩
  ∧ getBlock cliques (some .waitingForDependencies) id = .ok ⟨id, none⟩
  ∧ getBlock cliques (some (.discarded r)) id = .ok ⟨id, none⟩
  ∧ getBlock cliques none id = .ok ⟨id, none⟩ := by
  refine ⟨?_, ?_, ?_, ?_, ?_, ?_, ?_⟩ <;> simp [getBlock, hbc]

/-- Witness for C9 at a concrete clique set, block and identity. -/
theorem C9_get_block_classification_witness :
    getBlock [⟨[5], true⟩] (some (.active 3)) 5
      = .ok ⟨5, some ⟨false, false, true, 3⟩⟩
  ∧ getBlock [⟨[5], true⟩] (some (.final 3)) 5
      = .ok ⟨5, some ⟨true, false, true, 3⟩⟩
  ∧ getBlock [⟨[5], true⟩] (some .incoming) 5 = .ok ⟨5, none⟩
  ∧ getBlock [⟨[5], true⟩] (some .waitingForSlot) 5 = .ok ⟨5, none⟩
  ∧ getBlock [⟨[5], true⟩] (some .waitingForDependencies) 5 = .ok ⟨5, none⟩
  ∧ getBlock [⟨[5], true⟩] (some (.discarded .stale)) 5 = .ok ⟨5, none⟩
  ∧ getBlock [⟨[5], true⟩] none 5 = .ok ⟨5, none⟩ :=
  C9_get_block_classification [⟨[5], true⟩] ⟨[5], true⟩ rfl 5 3 .stale

theorem mergeOpEntry_lookup_ne (init : List (OperationId × OperationInfo))
    (p : OperationId × OperationSearchResult) (id : OperationId)
    (hne : ¬p.1 = id) : alookup (mergeOpEntry init p) id = alookup init id := by
  cases h : alookup init p.1 with
  | some old =>
    simp only [mergeOpEntry, h]
    exact alookup_ainsert_ne init _ (fun hh => hne hh.symm)
  | none =>
    simp only [mergeOpEntry, h]
    cases h2 : alookup init id with
    | some v => rw [alookup_append_of_some _ h2]
    | none =>
      rw [alookup_append_of_none _ h2]
      simp [alookup, hne]

theorem foldl_mergeOpEntry_lookup_notmem
    (c : List (OperationId × OperationSearchResult)) (id : OperationId)
    (hid : id ∉ akeys c) :
    ∀ init, alookup (c.foldl mergeOpEntry init) id = alookup init id := by
  induction c with
  | nil => intro init; rfl
  | cons p rest ih =>
    intro init
    simp only [akeys, List.map_cons, List.mem_cons, not_or] at hid
    obtain ⟨hne, hrest⟩ := hid
    rw [List.foldl_cons, ih (by simpa [akeys] using hrest)]
    exact mergeOpEntry_lookup_ne init p id (fun hh => hne hh.symm)

theorem foldl_mergeOpEntry_lookup
    (c : List (OperationId × OperationSearchResult))
    (hc : (akeys c).Nodup) (id : OperationId) :
    ∀ init, alookup (c.foldl mergeOpEntry init) id =
      match alookup c id with
      | none => alookup init id
      | some s =>
        match alookup init id with
        | some old => some (old.extend (opInfoFromConsensus id s))
        | none => some (opInfoFromConsensus id s) := by
  induction c with
  | nil => intro init; simp [alookup]
  | cons p rest ih =>
    intro init
    simp only [akeys, List.map_cons, List.nodup_cons] at hc
    obtain ⟨hp_notin, hrest⟩ := hc
    by_cases hp : p.1 = id
    · subst hp
      have hnotin : p.1 ∉ akeys rest := by simpa [akeys] using hp_notin
      rw [List.foldl_cons,
        foldl_mergeOpEntry_lookup_notmem rest p.1 hnotin]
      cases h : alookup init p.1 with
      | some old => simp [mergeOpEntry, h, alookup_ainsert_self, alookup]
      | none =>
        simp [mergeOpEntry, h, alookup_append_of_none _ h, alookup]
    · rw [List.foldl_cons, ih hrest (mergeOpEntry init p)]
      rw [mergeOpEntry_lookup_ne init p id hp]
      simp only [alookup, if_neg hp]

theorem alookup_map_pool (poolResp : List (OperationId × Operation))
    (id : OperationId) :
    alookup (poolResp.map (fun p => (p.1, opInfoFromPool p.1 p.2))) id
      = (alookup poolResp id).map (opInfoFromPool id) := by
  induction poolResp with
  | nil => rfl
  | cons q rest ih =>
    by_cases hq : q.1 = id
    · subst hq
      simp [alookup]
    · simp [alookup, hq, ih]

/-- The lookup characterisation of the merged operation map: an id found in
neither source is absent; found only in the pool it carries the pool-only
record; found only in consensus it carries the consensus record; found in
both it carries the pool record extended by the consensus record. -/
theorem mergedOps_lookup (poolResp : List (OperationId × Operation))
    (c : List (OperationId × OperationSearchResult))
    (hc : (akeys c).Nodup) (id : OperationId) :
    alookup (mergedOps poolResp c) id =
      match alookup c id with
      | none => (alookup poolResp id).map (opInfoFromPool id)
      | some s =>
        match (alookup poolResp id).map (opInfoFromPool id) with
        | some old => some (old.extend (opInfoFromConsensus id s))
        | none => some (opInfoFromConsensus id s) := by
  unfold mergedOps
  rw [foldl_mergeOpEntry_lookup c hc id, alookup_map_pool]

theorem mergeEdEntry_lookup_ne (init : List (EndorsementId × EndorsementInfo))
    (p : EndorsementId × Endorsement) (id : EndorsementId)
    (hne : ¬p.1 = id) : alookup (mergeEdEntry init p) id = alookup init id := by
  cases h : alookup init p.1 with
  | some old =>
    simp only [mergeEdEntry, h]
    exact alookup_ainsert_ne init _ (fun hh => hne hh.symm)
  | none =>
    simp only [mergeEdEntry, h]
    cases h2 : alookup init id with
    | some v => rw [alookup_append_of_some _ h2]
    | none =>
      rw [alookup_append_of_none _ h2]
      simp [alookup, hne]

theorem foldl_mergeEdEntry_lookup_notmem
    (pool : List (EndorsementId × Endorsement)) (id : EndorsementId)
    (hid : id ∉ akeys pool) :
    ∀ init, alookup (pool.foldl mergeEdEntry init) id = alookup init id := by
  induction pool with
  | nil => intro init; rfl
  | cons p rest ih =>
    intro init
    simp only [akeys, List.map_cons, List.mem_cons, not_or] at hid
    obtain ⟨hne, hrest⟩ := hid
    rw [List.foldl_cons, ih (by simpa [akeys] using hrest)]
    exact mergeEdEntry_lookup_ne init p id (fun hh => hne hh.symm)

/-- The lookup characterisation of the merged endorsement map: an id found
in neither source is absent; found only in the pool it carries the
pool-only record; found only in consensus it keeps the consensus record
unchanged; found in both it keeps the consensus record with `in_pool`
forced to true. -/
theorem mergedEds_lookup (c : List (EndorsementId × EndorsementInfo))
    (pool : List (EndorsementId × Endorsement))
    (hpool : (akeys pool).Nodup) (id : EndorsementId) :
    alookup (mergedEds c pool) id =
      match alookup pool id with
      | none => alookup c id
      | some e =>
        match alookup c id with
        | some old => some { old with in_pool := true }
        | none =>
          some { id := id, in_pool := true, in_blocks := [],
                 is_final := false, endorsement := e } := by
  unfold mergedEds
  induction pool generalizing c with
  | nil => simp [alookup]
  | cons p rest ih =>
    simp only [akeys, List.map_cons, List.nodup_cons] at hpool
    obtain ⟨hp_notin, hrest⟩ := hpool
    by_cases hp : p.1 = id
    · subst hp
      have hnotin : p.1 ∉ akeys rest := by simpa [akeys] using hp_notin
      rw [List.foldl_cons,
        foldl_mergeEdEntry_lookup_notmem rest p.1 hnotin]
      cases h : alookup c p.1 with
      | some old => simp [mergeEdEntry, h, alookup_ainsert_self, alookup]
      | none =>
        simp [mergeEdEntry, h, alookup_append_of_none _ h, alookup]
    · rw [List.foldl_cons]
      rw [ih (mergeEdEntry c p) hrest]
      rw [mergeEdEntry_lookup_ne c p id hp]
      simp only [alookup, if_neg hp]

theorem projectInOrder_eq_filterMap {α β : Type} [DecidableEq α] :
    ∀ (ops : List α), ops.Nodup → ∀ (res : List (α × β)),
      projectInOrder res ops = ops.filterMap (fun id => alookup res id)
  | [], _, res => rfl
  | id :: rest, hops, res => by
    obtain ⟨hnot, hrest⟩ := List.nodup_cons.mp hops
    cases h : alookup res id with
    | some v =>
      simp only [projectInOrder, h, List.filterMap_cons]
      rw [projectInOrder_eq_filterMap rest hrest (aremove res id)]
      rw [List.filterMap_congr (fun a ha =>
        alookup_aremove_ne res (fun hh => hnot (by rw [← hh]; exact ha)))]
    | none =>
      simp only [projectInOrder, h, List.filterMap_cons]
      rw [projectInOrder_eq_filterMap rest hrest res]

/-- Counterexample to C1: `get_endorsements` queried with `[1, 2]`, both
identities present in the consensus source whose map iterates them as
`[2, 1]`, answers the records in the order `[2, 1]` — not the caller's
input order.  (`get_endorsements` returns `res.values()` with no
re-projection, so any map iteration order can surface.) -/
theorem C1_get_endorsements_order_counterexample :
    (getEndorsements 10
        [(2, ⟨2, false, [], false, 20⟩), (1, ⟨1, false, [], false, 10⟩)]
        [] [1, 2]).1
      = .ok [⟨2, false, [], false, 20⟩, ⟨1, false, [], false, 10⟩]
  ∧ ([⟨2, false, [], false, 20⟩, ⟨1, false, [], false, 10⟩] :
        List EndorsementInfo)
      ≠ [⟨1, false, [], false, 10⟩, ⟨2, false, [], false, 20⟩] :=
  ⟨rfl, by decide⟩

/-- C1 (amended): `get_operations` returns its records in the caller's input
order (here stated for a duplicate-free query list) and omits any identity
found in neither the pool nor the consensus source; `get_endorsements`
likewise omits identities found in neither source, but returns its records
in the merged map's iteration order, NOT re-projected into the caller's
input order. -/
theorem C1_order_and_omission (maxO maxE : Nat)
    (poolResp : List (OperationId × Operation))
    (consensusResp : List (OperationId × OperationSearchResult))
    (ops : List OperationId)
    (consensusEds : List (EndorsementId × EndorsementInfo))
    (poolEds : List (EndorsementId × Endorsement))
    (eds : List EndorsementId)
    (hops : ops.Nodup) (hlenO : ops.length ≤ maxO)
    (hlenE : eds.length ≤ maxE) :
    (getOperations maxO poolResp consensusResp ops).1
      = .ok (ops.filterMap
          (fun id => alookup (mergedOps poolResp consensusResp) id))
  ∧ (∀ id, id ∉ akeys poolResp → id ∉ akeys consensusResp →
      alookup (mergedOps poolResp consensusResp) id = none)
  ∧ (getEndorsements maxE consensusEds poolEds eds).1
      = .ok ((mergedEds consensusEds poolEds).map Prod.snd)
  ∧ (∀ id, id ∉ akeys consensusEds → id ∉ akeys poolEds →
      id ∉ akeys (mergedEds consensusEds poolEds)) := by
  refine ⟨?_, ?_, ?_, ?_⟩
  · simp only [getOperations, if_neg (Nat.not_lt.mpr hlenO)]
    rw [projectInOrder_eq_filterMap ops hops]
  · intro id hidp hidc
    unfold mergedOps
    rw [foldl_mergeOpEntry_lookup_notmem consensusResp id hidc,
      alookup_map_pool, (alookup_eq_none_iff poolResp id).mpr hidp]
    rfl
  · simp only [getEndorsements, if_neg (Nat.not_lt.mpr hlenE)]
  · intro id hidc hidp
    rw [← alookup_eq_none_iff]
    unfold mergedEds
    rw [foldl_mergeEdEntry_lookup_notmem poolEds id hidp]
    exact (alookup_eq_none_iff consensusEds id).mpr hidc

/-- Witness for the amended C1 at concrete inputs: a three-id operation
query (one id known to pool only, one to consensus only, one to neither)
and a two-id endorsement query. -/
theorem C1_order_and_omission_witness :
    (getOperations 10 [(5, 50)] [(7, ⟨70, false, [(3, (0, true))]⟩)]
        [7, 5, 9]).1
      = .ok ([7, 5, 9].filterMap
          (fun id => alookup
            (mergedOps [(5, 50)] [(7, ⟨70, false, [(3, (0, true))]⟩)]) id))
  ∧ alookup (mergedOps [(5, 50)] [(7, ⟨70, false, [(3, (0, true))]⟩)]) 9
      = none
  ∧ (getEndorsements 10 [(2, ⟨2, false, [], false, 20⟩)] [] [1, 2]).1
      = .ok ((mergedEds [(2, ⟨2, false, [], false, 20⟩)] []).map Prod.snd)
  ∧ 3 ∉ akeys (mergedEds [(2, ⟨2, false, [], false, 20⟩)] []) := by
  have h := C1_order_and_omission 10 10 [(5, 50)]
    [(7, ⟨70, false, [(3, (0, true))]⟩)] [7, 5, 9]
    [(2, ⟨2, false, [], false, 20⟩)] [] [1, 2]
    (by decide) (by decide) (by decide)
  exact ⟨h.1, h.2.1 9 (by decide) (by decide), h.2.2.1,
    h.2.2.2 3 (by decide) (by decide)⟩

/-- C2: the three-case merge rule, for both `get_operations` and
`get_endorsements`.  An identity present only in the pool response yields a
record with `in_pool = true`, empty `in_blocks` and `is_final = false`; one
present only in the consensus response keeps the consensus-derived record
unchanged; one present in both yields a record whose `in_pool` is the OR of
both sides (the pool side being `true`), whose `in_blocks` is the union of
both sides (the pool side being empty) and whose `is_final` holds iff
either side reports finality (the pool side reporting `false`). -/
theorem C2_merge_rule
    (poolResp : List (OperationId × Operation))
    (consensusResp : List (OperationId × OperationSearchResult))
    (consensusEds : List (EndorsementId × EndorsementInfo))
    (poolEds : List (EndorsementId × Endorsement))
    (hc : (akeys consensusResp).Nodup) (hpe : (akeys poolEds).Nodup) :
    (∀ id op, alookup poolResp id = some op →
       alookup consensusResp id = none →
       alookup (mergedOps poolResp consensusResp) id
         = some (opInfoFromPool id op))
  ∧ (∀ id s, alookup poolResp id = none →
       alookup consensusResp id = some s →
       alookup (mergedOps poolResp consensusResp) id
         = some (opInfoFromConsensus id s))
  ∧ (∀ id op s, alookup poolResp id = some op →
       alookup consensusResp id = some s →
       alookup (mergedOps poolResp consensusResp) id
         = some { id := id,
                  in_pool := true,
                  in_blocks := (opInfoFromConsensus id s).in_blocks,
                  is_final := (opInfoFromConsensus id s).is_final,
                  operation := op })
  ∧ (∀ id e, alookup consensusEds id = none →
       alookup poolEds id = some e →
       alookup (mergedEds consensusEds poolEds) id
         = some { id := id, in_pool := true, in_blocks := [],
                  is_final := false, endorsement := e })
  ∧ (∀ id info, alookup consensusEds id = some info →
       alookup poolEds id = none →
       alookup (mergedEds consensusEds poolEds) id = some info)
  ∧ (∀ id info e, alookup consensusEds id = some info →
       alookup poolEds id = some e →
       alookup (mergedEds consensusEds poolEds) id
         = some { info with in_pool := true }) := by
  refine ⟨?_, ?_, ?_, ?_, ?_, ?_⟩
  · intro id op hp hcn
    rw [mergedOps_lookup poolResp consensusResp hc id, hcn, hp]
    rfl
  · intro id s hp hcs
    rw [mergedOps_lookup poolResp consensusResp hc id, hcs, hp]
    rfl
  · intro id op s hp hcs
    rw [mergedOps_lookup poolResp consensusResp hc id, hcs, hp]
    simp only [Option.map_some]
    show some ((opInfoFromPool id op).extend (opInfoFromConsensus id s)) = _
    unfold OperationInfo.extend opInfoFromPool
    simp [List.filter_eq_self]
  · intro id e hcn hp
    rw [mergedEds_lookup consensusEds poolEds hpe id, hp, hcn]
  · intro id info hcs hp
    rw [mergedEds_lookup consensusEds poolEds hpe id, hp]
    exact hcs
  · intro id info e hcs hp
    rw [mergedEds_lookup consensusEds poolEds hpe id, hp, hcs]

/-- Witness for C2 at concrete inputs covering all six cases: operation ids
5 (pool only), 7 (consensus only), 1 (both); endorsement ids 9 (pool only),
6 (consensus only), 4 (both). -/
theorem C2_merge_rule_witness :
    alookup (mergedOps [(5, 50), (1, 10)]
        [(7, ⟨70, false, [(3, (0, true))]⟩), (1, ⟨100, true, [(8, (1, false))]⟩)]) 5
      = some (opInfoFromPool 5 50)
  ∧ alookup (mergedOps [(5, 50), (1, 10)]
        [(7, ⟨70, false, [(3, (0, true))]⟩), (1, ⟨100, true, [(8, (1, false))]⟩)]) 7
      = some (opInfoFromConsensus 7 ⟨70, false, [(3, (0, true))]⟩)
  ∧ alookup (mergedOps [(5, 50), (1, 10)]
        [(7, ⟨70, false, [(3, (0, true))]⟩), (1, ⟨100, true, [(8, (1, false))]⟩)]) 1
      = some { id := 1, in_pool := true,
               in_blocks := (opInfoFromConsensus 1 ⟨100, true, [(8, (1, false))]⟩).in_blocks,
               is_final := (opInfoFromConsensus 1 ⟨100, true, [(8, (1, false))]⟩).is_final,
               operation := 10 }
  ∧ alookup (mergedEds [(6, ⟨6, false, [2], true, 60⟩), (4, ⟨4, false, [], false, 40⟩)]
        [(4, 44), (9, 99)]) 9
      = some { id := 9, in_pool := true, in_blocks := [],
               is_final := false, endorsement := 99 }
  ∧ alookup (mergedEds [(6, ⟨6, false, [2], true, 60⟩), (4, ⟨4, false, [], false, 40⟩)]
        [(4, 44), (9, 99)]) 6
      = some ⟨6, false, [2], true, 60⟩
  ∧ alookup (mergedEds [(6, ⟨6, false, [2], true, 60⟩), (4, ⟨4, false, [], false, 40⟩)]
        [(4, 44), (9, 99)]) 4
      = some { (⟨4, false, [], false, 40⟩ : EndorsementInfo) with in_pool := true } := by
  have h := C2_merge_rule [(5, 50), (1, 10)]
    [(7, ⟨70, false, [(3, (0, true))]⟩), (1, ⟨100, true, [(8, (1, false))]⟩)]
    [(6, ⟨6, false, [2], true, 60⟩), (4, ⟨4, false, [], false, 40⟩)]
    [(4, 44), (9, 99)] (by decide) (by decide)
  exact ⟨h.1 5 50 (by decide) (by decide),
    h.2.1 7 ⟨70, false, [(3, (0, true))]⟩ (by decide) (by decide),
    h.2.2.1 1 10 ⟨100, true, [(8, (1, false))]⟩ (by decide) (by decide),
    h.2.2.2.1 9 99 (by decide) (by decide),
    h.2.2.2.2.1 6 ⟨6, false, [2], true, 60⟩ (by decide) (by decide),
    h.2.2.2.2.2 4 ⟨4, false, [], false, 40⟩ 44 (by decide) (by decide)⟩

theorem enumMapFrom_length {α β : Type} (f : Nat → α → β) :
    ∀ (n : Nat) (l : List α), (enumMapFrom f n l).length = l.length
  | _, [] => rfl
  | n, _ :: rest => by
    simp [enumMapFrom, enumMapFrom_length f (n + 1) rest]

theorem enumMapFrom_getElem {α β : Type} (f : Nat → α → β) :
    ∀ (n : Nat) (l : List α) (i : Nat),
      (enumMapFrom f n l)[i]? = (l[i]?).map (f (n + i))
  | _, [], i => by simp [enumMapFrom]
  | n, a :: rest, 0 => by simp [enumMapFrom]
  | n, a :: rest, i + 1 => by
    simp only [enumMapFrom, List.getElem?_cons_succ]
    rw [enumMapFrom_getElem f (n + 1) rest i]
    have harith : n + 1 + i = n + (i + 1) := by omega
    rw [harith]

/-- C6: both read-only execution endpoints, on a batch within the argument
limit, return `Ok` with a response list positionally aligned with the input
list (same length, i-th response from the i-th translated request); when
the execution subsystem fails on a request, the corresponding response
carries executed-at slot `(0,0)`, an error-tagged result holding the
failure message, and no events — while the endpoint call itself still
succeeds. -/
theorem C6_readonly_error_to_value (maxA : Nat) (gen : Nat → Address)
    (exec : ReadOnlyExecutionRequest → Except String ExecutionOutput)
    (reqs : List ReadOnlyBytecodeExecution) (creqs : List ReadOnlyCall)
    (hb : reqs.length ≤ maxA) (hcc : creqs.length ≤ maxA) :
    (∃ out, (executeReadOnlyBytecode maxA gen exec reqs).1 = .ok out
      ∧ out.length = reqs.length
      ∧ (∀ i r, reqs[i]? = some r →
          out[i]? = some (mapExecResult (exec (buildBytecodeReq gen i r))))
      ∧ (∀ i r msg, reqs[i]? = some r →
          exec (buildBytecodeReq gen i r) = .error msg →
          out[i]? = some { executed_at := ⟨0, 0⟩,
                           result := .error ("readonly call failed: " ++ msg),
                           output_events := [] }))
  ∧ (∃ out, (executeReadOnlyCall maxA gen exec creqs).1 = .ok out
      ∧ out.length = creqs.length
      ∧ (∀ i r, creqs[i]? = some r →
          out[i]? = some (mapExecResult (exec (buildCallReq gen i r))))
      ∧ (∀ i r msg, creqs[i]? = some r →
          exec (buildCallReq gen i r) = .error msg →
          out[i]? = some { executed_at := ⟨0, 0⟩,
                           result := .error ("readonly call failed: " ++ msg),
                           output_events := [] })) := by
  constructor
  · refine ⟨enumMapFrom
      (fun i r => mapExecResult (exec (buildBytecodeReq gen i r))) 0 reqs,
      ?_, ?_, ?_, ?_⟩
    · simp only [executeReadOnlyBytecode, if_neg (Nat.not_lt.mpr hb)]
    · exact enumMapFrom_length _ 0 reqs
    · intro i r hr
      rw [enumMapFrom_getElem _ 0 reqs i, hr]
      simp
    · intro i r msg hr hmsg
      rw [enumMapFrom_getElem _ 0 reqs i, hr]
      simp [mapExecResult, hmsg]
  · refine ⟨enumMapFrom
      (fun i r => mapExecResult (exec (buildCallReq gen i r))) 0 creqs,
      ?_, ?_, ?_, ?_⟩
    · simp only [executeReadOnlyCall, if_neg (Nat.not_lt.mpr hcc)]
    · exact enumMapFrom_length _ 0 creqs
    · intro i r hr
      rw [enumMapFrom_getElem _ 0 creqs i, hr]
      simp
    · intro i r msg hr hmsg
      rw [enumMapFrom_getElem _ 0 creqs i, hr]
      simp [mapExecResult, hmsg]

/-- Witness for C6: a two-request bytecode batch and a one-request call
batch against an execution oracle that always fails with message "vm
crash". -/
theorem C6_readonly_error_to_value_witness :
    (∃ out, (executeReadOnlyBytecode 5 (fun _ => 0)
        (fun _ => .error "vm crash")
        [⟨10, some 1, 2, [3]⟩, ⟨11, none, 2, [4]⟩]).1 = .ok out
      ∧ out.length = 2
      ∧ out[0]? = some { executed_at := ⟨0, 0⟩,
                         result := .error ("readonly call failed: " ++ "vm crash"),
                         output_events := [] }) := by
  obtain ⟨out, hok, hlen, _, herr⟩ :=
    (C6_readonly_error_to_value 5 (fun _ => 0) (fun _ => .error "vm crash")
      [⟨10, some 1, 2, [3]⟩, ⟨11, none, 2, [4]⟩] [] (by decide) (by decide)).1
  exact ⟨out, hok, hlen,
    herr 0 ⟨10, some 1, 2, [3]⟩ "vm crash" (by decide) rfl⟩

theorem collectSteps_error_of_mem {α β : Type} (f : α → Except ApiError β) :
    ∀ (l : List α) (a : α), a ∈ l → (∃ e, f a = .error e) →
      ∃ e', collectSteps f l = .error e'
  | b :: rest, a, hmem, ⟨e, he⟩ => by
    cases hb : f b with
    | error eb => exact ⟨eb, by simp [collectSteps, hb]⟩
    | ok vb =>
      rcases List.mem_cons.mp hmem with heq | hrest
      · subst heq
        rw [hb] at he
        exact absurd he (by simp)
      · obtain ⟨e', he'⟩ :=
          collectSteps_error_of_mem f rest a hrest ⟨e, he⟩
        exact ⟨e', by simp [collectSteps, hb, he']⟩

theorem collectSteps_ok_length {α β : Type} (f : α → Except ApiError β) :
    ∀ (l : List α) (out : List β), collectSteps f l = .ok out →
      out.length = l.length
  | [], out, h => by
    simp only [collectSteps] at h
    cases h
    rfl
  | a :: rest, out, h => by
    simp only [collectSteps] at h
    cases hb : f a with
    | error e => rw [hb] at h; exact absurd h (by simp)
    | ok vb =>
      rw [hb] at h
      cases hr : collectSteps f rest with
      | error e => rw [hr] at h; exact absurd h (by simp)
      | ok vs =>
        rw [hr] at h
        cases h
        simp [collectSteps_ok_length f rest vs hr]

theorem collectSteps_ok_getElem {α β : Type} (f : α → Except ApiError β) :
    ∀ (l : List α) (out : List β), collectSteps f l = .ok out →
      ∀ (i : Nat) (a : α), l[i]? = some a →
        ∃ b, f a = .ok b ∧ out[i]? = some b
  | [], out, h, i, a, ha => by simp at ha
  | c :: rest, out, h, i, a, ha => by
    simp only [collectSteps] at h
    cases hb : f c with
    | error e => rw [hb] at h; exact absurd h (by simp)
    | ok vb =>
      rw [hb] at h
      cases hr : collectSteps f rest with
      | error e => rw [hr] at h; exact absurd h (by simp)
      | ok vs =>
        rw [hr] at h
        cases h
        cases i with
        | zero =>
          simp only [List.getElem?_cons_zero] at ha
          cases ha
          exact ⟨vb, hb, by simp⟩
        | succ j =>
          simp only [List.getElem?_cons_succ] at ha ⊢
          exact collectSteps_ok_getElem f rest vs hr j a ha

theorem ainsert_notmem {α β : Type} [DecidableEq α]
    (m : List (α × β)) (k : α) (v : β) (h : k ∉ akeys m) :
    ainsert m k v = m ++ [(k, v)] := by
  induction m with
  | nil => rfl
  | cons p rest ih =>
    simp only [akeys, List.map_cons, List.mem_cons, not_or] at h
    obtain ⟨hne, hrest⟩ := h
    have hne2 : ¬p.1 = k := fun hh => hne hh.symm
    simp only [ainsert, if_neg hne2, List.cons_append]
    rw [ih (by simpa [akeys] using hrest)]

theorem foldl_ainsert_eq_append {α β : Type} [DecidableEq α] :
    ∀ (pairs : List (α × β)), (pairs.map Prod.fst).Nodup →
      ∀ (m : List (α × β)), (∀ p ∈ pairs, p.1 ∉ akeys m) →
        pairs.foldl (fun m p => ainsert m p.1 p.2) m = m ++ pairs
  | [], _, m, _ => by simp
  | p :: rest, hnd, m, hdisj => by
    simp only [List.map_cons, List.nodup_cons] at hnd
    obtain ⟨hp_notin, hrest⟩ := hnd
    rw [List.foldl_cons,
      ainsert_notmem m p.1 p.2 (hdisj p (List.mem_cons_self p rest))]
    rw [foldl_ainsert_eq_append rest hrest (m ++ [(p.1, p.2)]) ?_]
    · simp
    · intro q hq
      simp only [akeys, List.map_append, List.mem_append, not_or]
      constructor
      · have := hdisj q (List.mem_cons_of_mem p hq)
        simpa [akeys] using this
      · simp only [List.map_cons, List.map_nil, List.mem_singleton]
        intro hqe
        exact hp_notin (hqe ▸ List.mem_map_of_mem Prod.fst hq)

theorem sendOpStep_ok_verify
    (deser : List Nat → Except String (List Nat × Operation))
    (verify : Operation → Except String OperationId)
    (inp : OperationInput) (id : OperationId) (op : Operation)
    (h : sendOpStep deser verify inp = .ok (id, op)) : verify op = .ok id := by
  unfold sendOpStep at h
  split at h
  · simp at h
  · split at h
    · split at h
      · cases h
        assumption
      · simp at h
    · simp at h

/-- C4: `send_operations` is all-or-nothing.  An operation whose
deserialization leaves trailing bytes fails its step with the dedicated
error; if any step of the batch fails, the whole request errors with an
empty trace, i.e. without any pool submission; if every step succeeds and
the derived identities are pairwise distinct, the call returns exactly one
identity per input operation, the i-th being the integrity-derived identity
of the i-th operation. -/
theorem C4_send_operations_all_or_nothing (maxA : Nat)
    (deser : List Nat → Except String (List Nat × Operation))
    (verify : Operation → Except String OperationId)
    (add_operations : List (OperationId × Operation) → Except String Unit)
    (ops : List OperationInput) (hlen : ops.length ≤ maxA) :
    (∀ inp ∈ ops, ∀ rest op, deser (opWireForm inp) = .ok (rest, op) →
       rest ≠ [] →
       sendOpStep deser verify inp = .error (.modelsError
         "There is data left after operation deserialization"))
  ∧ ((∃ inp ∈ ops, ∃ e, sendOpStep deser verify inp = .error e) →
       ∃ e', sendOperations maxA deser verify add_operations ops
         = (.error e', []))
  ∧ (∀ pairs, collectSteps (sendOpStep deser verify) ops = .ok pairs →
       (pairs.map Prod.fst).Nodup →
       add_operations pairs = .ok () →
       (sendOperations maxA deser verify add_operations ops).1
           = .ok (pairs.map Prod.fst)
         ∧ (pairs.map Prod.fst).length = ops.length
         ∧ (∀ (i : Nat) (inp : OperationInput), ops[i]? = some inp →
             ∃ id op, sendOpStep deser verify inp = .ok (id, op)
               ∧ verify op = .ok id ∧ pairs[i]? = some (id, op))) := by
  refine ⟨?_, ?_, ?_⟩
  · intro inp _ rest op hd hrest
    unfold sendOpStep
    rw [hd]
    have hemp : rest.isEmpty = false := by simpa using hrest
    simp [hemp]
  · intro ⟨inp, hmem, he⟩
    obtain ⟨e', he'⟩ :=
      collectSteps_error_of_mem (sendOpStep deser verify) ops inp hmem he
    refine ⟨e', ?_⟩
    simp only [sendOperations, if_neg (Nat.not_lt.mpr hlen), he']
  · intro pairs hok hnd hadd
    have hmap : pairs.foldl (fun m p => ainsert m p.1 p.2) [] = pairs := by
      rw [foldl_ainsert_eq_append pairs hnd [] (by simp [akeys])]
      simp
    refine ⟨?_, ?_, ?_⟩
    · simp only [sendOperations, if_neg (Nat.not_lt.mpr hlen), hok, hmap,
        hadd, akeys]
    · rw [List.length_map]
      exact collectSteps_ok_length _ ops pairs hok
    · intro i inp hi
      obtain ⟨b, hb, hout⟩ :=
        collectSteps_ok_getElem _ ops pairs hok i inp hi
      obtain ⟨id, op⟩ := b
      exact ⟨id, op, hb, sendOpStep_ok_verify deser verify inp id op hb, hout⟩

/-- Witness for C4: a two-operation batch where both operations are
well-formed and distinct (success case), instantiated from the theorem;
the trailing-bytes clause at an input whose deserialization leaves one
byte. -/
theorem C4_send_operations_all_or_nothing_witness :
    (sendOperations 10
        (fun bytes => if bytes = [1] then .ok ([], 100)
          else if bytes = [2] then .ok ([], 200) else .ok ([9], 300))
        (fun op => .ok (op + 1)) (fun _ => .ok ())
        [⟨[1], [], []⟩, ⟨[2], [], []⟩]).1 = .ok [101, 201]
  ∧ sendOpStep
      (fun bytes => if bytes = [1] then .ok ([], 100)
        else if bytes = [2] then .ok ([], 200) else .ok ([9], 300))
      (fun op => .ok (op + 1)) ⟨[3], [], []⟩
      = .error (.modelsError
          "There is data left after operation deserialization") := by
  have h := C4_send_operations_all_or_nothing 10
    (fun bytes => if bytes = [1] then .ok ([], 100)
      else if bytes = [2] then .ok ([], 200) else .ok ([9], 300))
    (fun op => .ok (op + 1)) (fun _ => .ok ())
    [⟨[1], [], []⟩, ⟨[2], [], []⟩] (by decide)
  have hsucc := h.2.2 [(101, 100), (201, 200)] rfl (by decide) rfl
  refine ⟨hsucc.1, ?_⟩
  have h2 := C4_send_operations_all_or_nothing 10
    (fun bytes => if bytes = [1] then .ok ([], 100)
      else if bytes = [2] then .ok ([], 200) else .ok ([9], 300))
    (fun op => .ok (op + 1)) (fun _ => .ok ())
    [⟨[3], [], []⟩] (by decide)
  exact h2.1 ⟨[3], [], []⟩ (by simp) [9] 300 rfl (by decide)

theorem find?_eq_of_unique {α : Type} (p : α → Bool) :
    ∀ (l : List α) (a : α), a ∈ l → p a = true →
      (∀ b ∈ l, p b = true → b = a) → l.find? p = some a
  | c :: rest, a, hmem, hpa, huniq => by
    by_cases hc : p c = true
    · have hca : c = a := huniq c (List.mem_cons_self c rest) hc
      subst hca
      exact List.find?_cons_of_pos rest hc
    · have hac : a ∈ rest := by
        rcases List.mem_cons.mp hmem with heq | hr
        · exact absurd (heq ▸ hpa) hc
        · exact hr
      rw [List.find?_cons_of_neg rest (by simpa using hc)]
      exact find?_eq_of_unique p rest a hac hpa
        (fun b hb hpb => huniq b (List.mem_cons_of_mem c hb) hpb)

/-- C7: with a unique clique marked blockclique, `get_graph_interval`
projects exactly the active blocks plus the discarded blocks whose discard
reason is exactly `Stale`: every active block contributes a summary tagged
`is_stale = false` with blockclique membership computed against the unique
blockclique's id set, every stale-discarded block contributes a summary
with `is_final = false`, `is_stale = true`, `is_in_blockclique = false`,
and nothing else appears in the output. -/
theorem C7_graph_interval_projection (graph : BlockGraphExport) (bc : Clique)
    (hmem : bc ∈ graph.max_cliques) (hbc : bc.is_blockclique = true)
    (huniq : ∀ c ∈ graph.max_cliques, c.is_blockclique = true → c = bc) :
    ∃ out, getGraphInterval graph = .ok out
      ∧ (∀ p ∈ graph.active_blocks, summaryOfActive bc p ∈ out)
      ∧ (∀ p ∈ graph.discarded_blocks, p.2.1 = DiscardReason.stale →
          summaryOfStale p ∈ out)
      ∧ (∀ s ∈ out,
          (∃ p ∈ graph.active_blocks, s = summaryOfActive bc p)
          ∨ (∃ p ∈ graph.discarded_blocks,
              p.2.1 = DiscardReason.stale ∧ s = summaryOfStale p))
      ∧ (∀ p : BlockId × ExportedActiveBlock,
          (summaryOfActive bc p).is_final = p.2.is_final
            ∧ (summaryOfActive bc p).is_stale = false
            ∧ (summaryOfActive bc p).is_in_blockclique
                = bc.block_ids.contains p.1)
      ∧ (∀ q : BlockId × (DiscardReason × BlockHeader),
          (summaryOfStale q).is_final = false
            ∧ (summaryOfStale q).is_stale = true
            ∧ (summaryOfStale q).is_in_blockclique = false) := by
  have hfind : graph.max_cliques.find? (fun c => c.is_blockclique) = some bc :=
    find?_eq_of_unique _ graph.max_cliques bc hmem hbc huniq
  refine ⟨graph.active_blocks.map (summaryOfActive bc)
    ++ (graph.discarded_blocks.filter
        (fun p => p.2.1 = DiscardReason.stale)).map summaryOfStale,
    ?_, ?_, ?_, ?_, ?_, ?_⟩
  · simp [getGraphInterval, hfind]
  · intro p hp
    exact List.mem_append_left _ (List.mem_map_of_mem _ hp)
  · intro p hp hstale
    refine List.mem_append_right _ (List.mem_map_of_mem _ ?_)
    exact List.mem_filter.mpr ⟨hp, by simp [hstale]⟩
  · intro s hs
    rcases List.mem_append.mp hs with hleft | hright
    · obtain ⟨p, hp, heq⟩ := List.mem_map.mp hleft
      exact Or.inl ⟨p, hp, heq.symm⟩
    · obtain ⟨p, hpf, heq⟩ := List.mem_map.mp hright
      obtain ⟨hp, hpred⟩ := List.mem_filter.mp hpf
      exact Or.inr ⟨p, hp, by simpa using hpred, heq.symm⟩
  · intro p
    exact ⟨rfl, rfl, rfl⟩
  · intro q
    exact ⟨rfl, rfl, rfl⟩

/-- Witness for C7: the spec's own example — one final active block B1 out
of the blockclique, one non-final active block B2 in the blockclique, one
stale-discarded block B3, plus one invalid-discarded block B4 that must not
appear. -/
theorem C7_graph_interval_projection_witness :
    ∃ out, getGraphInterval
        ⟨[(1, ⟨true, ⟨⟨⟨1, 0⟩, []⟩, 10⟩⟩), (2, ⟨false, ⟨⟨⟨2, 0⟩, []⟩, 20⟩⟩)],
         [(3, (.stale, ⟨⟨⟨3, 0⟩, []⟩, 30⟩)),
          (4, (.invalid "bad", ⟨⟨⟨4, 0⟩, []⟩, 40⟩))],
         [⟨[2], true⟩]⟩ = .ok out
      ∧ summaryOfActive ⟨[2], true⟩ (1, ⟨true, ⟨⟨⟨1, 0⟩, []⟩, 10⟩⟩) ∈ out
      ∧ summaryOfActive ⟨[2], true⟩ (2, ⟨false, ⟨⟨⟨2, 0⟩, []⟩, 20⟩⟩) ∈ out
      ∧ summaryOfStale (3, (.stale, ⟨⟨⟨3, 0⟩, []⟩, 30⟩)) ∈ out := by
  obtain ⟨out, hok, hact, hstale, _, _, _⟩ :=
    C7_graph_interval_projection
      ⟨[(1, ⟨true, ⟨⟨⟨1, 0⟩, []⟩, 10⟩⟩), (2, ⟨false, ⟨⟨⟨2, 0⟩, []⟩, 20⟩⟩)],
       [(3, (.stale, ⟨⟨⟨3, 0⟩, []⟩, 30⟩)),
        (4, (.invalid "bad", ⟨⟨⟨4, 0⟩, []⟩, 40⟩))],
       [⟨[2], true⟩]⟩ ⟨[2], true⟩ (by simp) rfl (by simp)
  exact ⟨out, hok, hact _ (by simp), hact _ (by simp),
    hstale _ (by simp) rfl⟩

/-- All seven accumulation maps hold an entry for the address. -/
def gatherHas (m : GatherMaps) (a : Address) : Prop :=
  (alookup m.blocks a).isSome ∧ (alookup m.operations a).isSome
    ∧ (alookup m.endorsements a).isSome
    ∧ (alookup m.final_balance a).isSome
    ∧ (alookup m.candidate_balance a).isSome
    ∧ (alookup m.final_keys a).isSome
    ∧ (alookup m.candidate_keys a).isSome

theorem gatherHas_insert_self (m : GatherMaps) (g : AddrGathered) :
    gatherHas (insertGathered m g) g.addr := by
  refine ⟨?_, ?_, ?_, ?_, ?_, ?_, ?_⟩ <;>
    simp [insertGathered, alookup_ainsert_self]

theorem gatherHas_insert_mono (m : GatherMaps) (g : AddrGathered)
    (a : Address) (h : gatherHas m a) : gatherHas (insertGathered m g) a := by
  obtain ⟨h1, h2, h3, h4, h5, h6, h7⟩ := h
  exact ⟨isSome_alookup_ainsert _ _ _ _ h1, isSome_alookup_ainsert _ _ _ _ h2,
    isSome_alookup_ainsert _ _ _ _ h3, isSome_alookup_ainsert _ _ _ _ h4,
    isSome_alookup_ainsert _ _ _ _ h5, isSome_alookup_ainsert _ _ _ _ h6,
    isSome_alookup_ainsert _ _ _ _ h7⟩

theorem gatherHas_foldl (gathered : List AddrGathered) (a : Address) :
    ∀ m0 : GatherMaps, ((∃ g ∈ gathered, g.addr = a) ∨ gatherHas m0 a) →
      gatherHas (gathered.foldl insertGathered m0) a := by
  induction gathered with
  | nil =>
    intro m0 h
    rcases h with ⟨g, hg, _⟩ | h
    · exact absurd hg (List.not_mem_nil g)
    · exact h
  | cons g rest ih =>
    intro m0 h
    rw [List.foldl_cons]
    rcases h with ⟨g', hg', haddr⟩ | hm
    · rcases List.mem_cons.mp hg' with heq | hr
      · subst heq
        exact ih _ (Or.inr (haddr ▸ gatherHas_insert_self m0 g'))
      · exact ih _ (Or.inl ⟨g', hr, haddr⟩)
    · exact ih _ (Or.inr (gatherHas_insert_mono m0 g a hm))

theorem gatherHas_remove_ne (m : GatherMaps) (a a' : Address) (h : a' ≠ a)
    (hg : gatherHas m a') : gatherHas (removeGathered m a) a' := by
  obtain ⟨h1, h2, h3, h4, h5, h6, h7⟩ := hg
  refine ⟨?_, ?_, ?_, ?_, ?_, ?_, ?_⟩ <;>
    simp only [removeGathered] <;>
    rw [alookup_aremove_ne _ h] <;>
    assumption

theorem addrTask_ok_addr (o : AddrOracles) (a : Address) (g : AddrGathered)
    (h : addrTask o a = .ok g) : g.addr = a := by
  unfold addrTask at h
  cases h1 : o.blocks_by_creator a <;> rw [h1] at h <;>
    simp only [Bind.bind, Except.bind] at h
  · exact absurd h (by simp)
  cases h2 : o.pool_ops_by_addr a <;> rw [h2] at h <;>
    simp only [Bind.bind, Except.bind] at h
  · exact absurd h (by simp)
  cases h3 : o.consensus_ops_by_addr a <;> rw [h3] at h <;>
    simp only [Bind.bind, Except.bind] at h
  · exact absurd h (by simp)
  cases h4 : o.pool_eds_by_addr a <;> rw [h4] at h <;>
    simp only [Bind.bind, Except.bind] at h
  · exact absurd h (by simp)
  cases h5 : o.consensus_eds_by_addr a <;> rw [h5] at h <;>
    simp only [Bind.bind, Except.bind] at h
  · exact absurd h (by simp)
  cases h
  rfl

theorem collectSteps_ok_of_all {α β : Type} (f : α → Except ApiError β) :
    ∀ l : List α, (∀ a ∈ l, ∃ b, f a = .ok b) →
      ∃ out, collectSteps f l = .ok out
  | [], _ => ⟨[], rfl⟩
  | a :: rest, h => by
    obtain ⟨b, hb⟩ := h a (List.mem_cons_self a rest)
    obtain ⟨out, hout⟩ := collectSteps_ok_of_all f rest
      (fun a' ha' => h a' (List.mem_cons_of_mem a ha'))
    exact ⟨b :: out, by simp [collectSteps, hb, hout]⟩

theorem compileLoop_missing_state (cfg : ConsensusConfig)
    (sel : Address → Slot → Slot → (List Slot × List Slot))
    (curr endS : Slot) :
    ∀ (addrs : List Address) (states : List (Address × AddressState))
      (m : GatherMaps), addrs.Nodup → (∀ a ∈ addrs, gatherHas m a) →
      (∃ a ∈ addrs, alookup states a = none) →
      compileLoop cfg sel curr endS states m addrs
        = .error ApiError.notFound
  | [], _, _, _, _, habs => by
    obtain ⟨a, ha, _⟩ := habs
    exact absurd ha (List.not_mem_nil a)
  | a0 :: rest, states, m, hnd, hhas, ⟨a, ha, hnone⟩ => by
    obtain ⟨h0, hndrest⟩ := List.nodup_cons.mp hnd
    cases hs : alookup states a0 with
    | none =>
      unfold compileLoop
      rw [hs]
      rfl
    | some st =>
      have hane : a ≠ a0 := by
        rintro rfl
        rw [hs] at hnone
        exact Option.noConfusion hnone
      have harest : a ∈ rest := by
        rcases List.mem_cons.mp ha with heq | hr
        · exact absurd heq hane
        · exact hr
      have hg := hhas a0 (List.mem_cons_self a0 rest)
      obtain ⟨b1, hb1⟩ := Option.isSome_iff_exists.mp hg.1
      obtain ⟨b2, hb2⟩ := Option.isSome_iff_exists.mp hg.2.1
      obtain ⟨b3, hb3⟩ := Option.isSome_iff_exists.mp hg.2.2.1
      obtain ⟨b4, hb4⟩ := Option.isSome_iff_exists.mp hg.2.2.2.1
      obtain ⟨b5, hb5⟩ := Option.isSome_iff_exists.mp hg.2.2.2.2.1
      obtain ⟨b6, hb6⟩ := Option.isSome_iff_exists.mp hg.2.2.2.2.2.1
      obtain ⟨b7, hb7⟩ := Option.isSome_iff_exists.mp hg.2.2.2.2.2.2
      have hrec := compileLoop_missing_state cfg sel curr endS rest
        (aremove states a0) (removeGathered m a0) hndrest
        (fun a' ha' => gatherHas_remove_ne m a0 a'
          (fun hh => h0 (hh ▸ ha'))
          (hhas a' (List.mem_cons_of_mem a0 ha')))
        ⟨a, harest, by rw [alookup_aremove_ne states hane]; exact hnone⟩
      unfold compileLoop
      rw [hs]
      simp only [removeGathered] at hrec
      simp [okOrNotFound, Bind.bind, Except.bind, hb1, hb2, hb3, hb4, hb5,
        hb6, hb7, removeGathered, hrec]

theorem compileLoop_ok_strong (cfg : ConsensusConfig)
    (sel : Address → Slot → Slot → (List Slot × List Slot))
    (curr endS : Slot) :
    ∀ (addrs : List Address) (states : List (Address × AddressState))
      (m : GatherMaps), addrs.Nodup → (∀ a ∈ addrs, gatherHas m a) →
      (∀ a ∈ addrs, (alookup states a).isSome) →
      ∃ out, compileLoop cfg sel curr endS states m addrs = .ok out
        ∧ out.length = addrs.length
        ∧ (∀ (i : Nat) (a : Address), addrs[i]? = some a →
            ∃ info, out[i]? = some info ∧ info.address = a
              ∧ info.thread = a.get_thread cfg.thread_count
              ∧ info.block_draws = (sel a curr endS).1
              ∧ info.endorsement_draws = (sel a curr endS).2)
  | [], states, m, _, _, _ => ⟨[], rfl, rfl, by intro i a h; simp at h⟩
  | a0 :: rest, states, m, hnd, hhas, hstates => by
    obtain ⟨h0, hndrest⟩ := List.nodup_cons.mp hnd
    obtain ⟨st, hs⟩ := Option.isSome_iff_exists.mp
      (hstates a0 (List.mem_cons_self a0 rest))
    have hg := hhas a0 (List.mem_cons_self a0 rest)
    obtain ⟨b1, hb1⟩ := Option.isSome_iff_exists.mp hg.1
    obtain ⟨b2, hb2⟩ := Option.isSome_iff_exists.mp hg.2.1
    obtain ⟨b3, hb3⟩ := Option.isSome_iff_exists.mp hg.2.2.1
    obtain ⟨b4, hb4⟩ := Option.isSome_iff_exists.mp hg.2.2.2.1
    obtain ⟨b5, hb5⟩ := Option.isSome_iff_exists.mp hg.2.2.2.2.1
    obtain ⟨b6, hb6⟩ := Option.isSome_iff_exists.mp hg.2.2.2.2.2.1
    obtain ⟨b7, hb7⟩ := Option.isSome_iff_exists.mp hg.2.2.2.2.2.2
    obtain ⟨out_rest, hrec, hlen, hidx⟩ :=
      compileLoop_ok_strong cfg sel curr endS rest
        (aremove states a0) (removeGathered m a0) hndrest
        (fun a' ha' => gatherHas_remove_ne m a0 a'
          (fun hh => h0 (hh ▸ ha'))
          (hhas a' (List.mem_cons_of_mem a0 ha')))
        (fun a' ha' => by
          rw [alookup_aremove_ne states
            (fun hh => h0 (by rw [← hh]; exact ha'))]
          exact hstates a' (List.mem_cons_of_mem a0 ha'))
    let info : AddressInfo :=
      { address := a0,
        thread := a0.get_thread cfg.thread_count,
        ledger_info := st.ledger_info, rolls := st.rolls,
        block_draws := (sel a0 curr endS).1,
        endorsement_draws := (sel a0 curr endS).2,
        blocks_created := b1, involved_in_endorsements := b3,
        involved_in_operations := b2,
        production_stats := st.production_stats,
        final_balance_info := b4, candidate_balance_info := b5,
        final_datastore_keys := b6,
        candidate_datastore_keys := b7 }
    refine ⟨info :: out_rest, ?_, ?_, ?_⟩
    · unfold compileLoop
      rw [hs]
      simp only [removeGathered] at hrec
      simp [okOrNotFound, Bind.bind, Except.bind, hb1, hb2, hb3, hb4, hb5,
        hb6, hb7, removeGathered, hrec]
    · simp [hlen]
    · intro i a hi
      cases i with
      | zero =>
        simp only [List.getElem?_cons_zero] at hi
        cases hi
        exact ⟨info, by simp, rfl, rfl, rfl, rfl⟩
      | succ j =>
        simp only [List.getElem?_cons_succ] at hi ⊢
        exact hidx j a hi

theorem getAddresses_success (maxA la : Nat) (cfg : ConsensusConfig)
    (lastSlot : Option Slot) (o : AddrOracles) (addresses : List Address)
    (states : List (Address × AddressState))
    (hlen : addresses.length ≤ maxA) (hnd : addresses.Nodup)
    (hso : o.addresses_info addresses = .ok states)
    (htasks : ∀ a ∈ addresses, ∃ g, addrTask o a = .ok g)
    (hall : ∀ a ∈ addresses, (alookup states a).isSome) :
    ∃ out, (getAddresses maxA la cfg lastSlot o addresses).1 = .ok out
      ∧ out.length = addresses.length
      ∧ (∀ (i : Nat) (a : Address), addresses[i]? = some a →
          ∃ info, out[i]? = some info ∧ info.address = a
            ∧ info.thread = a.get_thread cfg.thread_count
            ∧ info.block_draws
                = (o.selections a (currSlotOf lastSlot)
                    ⟨(currSlotOf lastSlot).period + la,
                     (currSlotOf lastSlot).thread⟩).1
            ∧ info.endorsement_draws
                = (o.selections a (currSlotOf lastSlot)
                    ⟨(currSlotOf lastSlot).period + la,
                     (currSlotOf lastSlot).thread⟩).2) := by
  obtain ⟨gathered, hcol⟩ := collectSteps_ok_of_all (addrTask o) addresses htasks
  have hhas : ∀ a ∈ addresses,
      gatherHas (gathered.foldl insertGathered emptyGatherMaps) a := by
    intro a ha
    obtain ⟨i, hi⟩ := List.getElem?_of_mem ha
    obtain ⟨g, hg, hgi⟩ := collectSteps_ok_getElem (addrTask o) addresses
      gathered hcol i a hi
    exact gatherHas_foldl gathered a _
      (Or.inl ⟨g, List.getElem?_mem hgi, addrTask_ok_addr o a g hg⟩)
  obtain ⟨out, hloop, hlen2, hidx⟩ := compileLoop_ok_strong cfg o.selections
    (currSlotOf lastSlot)
    ⟨(currSlotOf lastSlot).period + la, (currSlotOf lastSlot).thread⟩
    addresses states (gathered.foldl insertGathered emptyGatherMaps)
    hnd hhas hall
  refine ⟨out, ?_, hlen2, hidx⟩
  simp only [getAddresses, if_neg (Nat.not_lt.mpr hlen), hso, hcol, hloop]

/-- C8: `get_addresses` is fail-fast and never emits a partial composite
record.  If the batched state fetch fails, the request fails with that
error; if any per-address getter task fails, the whole request fails; if
the tasks all succeed but some queried address is missing from the state
map at join time, the request fails with `NotFound`; and only when every
per-address sub-result is present does the request succeed, with one
complete record per queried address. -/
theorem C8_get_addresses_fail_fast (maxA la : Nat) (cfg : ConsensusConfig)
    (lastSlot : Option Slot) (o : AddrOracles) (addresses : List Address)
    (hlen : addresses.length ≤ maxA) (hnd : addresses.Nodup) :
    (∀ e, o.addresses_info addresses = .error e →
       (getAddresses maxA la cfg lastSlot o addresses).1 = .error e)
  ∧ ((∃ a ∈ addresses, ∃ e, addrTask o a = .error e) →
       ∃ e', (getAddresses maxA la cfg lastSlot o addresses).1 = .error e')
  ∧ (∀ states, o.addresses_info addresses = .ok states →
       (∀ a ∈ addresses, ∃ g, addrTask o a = .ok g) →
       ((∃ a ∈ addresses, alookup states a = none) →
          (getAddresses maxA la cfg lastSlot o addresses).1
            = .error ApiError.notFound)
       ∧ ((∀ a ∈ addresses, (alookup states a).isSome) →
          ∃ out, (getAddresses maxA la cfg lastSlot o addresses).1 = .ok out
            ∧ out.length = addresses.length
            ∧ (∀ (i : Nat) (a : Address), addresses[i]? = some a →
                ∃ info, out[i]? = some info ∧ info.address = a))) := by
  refine ⟨?_, ?_, ?_⟩
  · intro e he
    simp only [getAddresses, if_neg (Nat.not_lt.mpr hlen), he]
  · intro ⟨a, ha, e, he⟩
    cases hsi : o.addresses_info addresses with
    | error e2 =>
      exact ⟨e2, by
        simp only [getAddresses, if_neg (Nat.not_lt.mpr hlen), hsi]⟩
    | ok sts =>
      obtain ⟨e', hce⟩ :=
        collectSteps_error_of_mem (addrTask o) addresses a ha ⟨e, he⟩
      exact ⟨e', by
        simp only [getAddresses, if_neg (Nat.not_lt.mpr hlen), hsi, hce]⟩
  · intro states hso htasks
    obtain ⟨gathered, hcol⟩ :=
      collectSteps_ok_of_all (addrTask o) addresses htasks
    have hhas : ∀ a ∈ addresses,
        gatherHas (gathered.foldl insertGathered emptyGatherMaps) a := by
      intro a ha
      obtain ⟨i, hi⟩ := List.getElem?_of_mem ha
      obtain ⟨g, hg, hgi⟩ := collectSteps_ok_getElem (addrTask o) addresses
        gathered hcol i a hi
      exact gatherHas_foldl gathered a _
        (Or.inl ⟨g, List.getElem?_mem hgi, addrTask_ok_addr o a g hg⟩)
    constructor
    · intro hmiss
      have hfail := compileLoop_missing_state cfg o.selections
        (currSlotOf lastSlot)
        ⟨(currSlotOf lastSlot).period + la, (currSlotOf lastSlot).thread⟩
        addresses states (gathered.foldl insertGathered emptyGatherMaps)
        hnd hhas hmiss
      simp only [getAddresses, if_neg (Nat.not_lt.mpr hlen), hso, hcol,
        hfail]
    · intro hall
      obtain ⟨out, hok, hlen2, hidx⟩ := getAddresses_success maxA la cfg
        lastSlot o addresses states hlen hnd hso htasks hall
      exact ⟨out, hok, hlen2, fun i a hi =>
        (hidx i a hi).imp (fun info hh => ⟨hh.1, hh.2.1⟩)⟩

/-- A set of subsystem oracles whose batched state fetch answers every
queried address, used for success-path witnesses. -/
def okOracles : AddrOracles :=
  { trivialOracles with
    addresses_info := fun addrs => .ok (addrs.map (fun a => (a, ⟨0, 0, 0⟩))) }

/-- Witness for C8: with oracles whose state fetch returns an empty map, a
two-address request fails with `NotFound`; with oracles answering every
address, the same request succeeds with one record per address. -/
theorem C8_get_addresses_fail_fast_witness :
    (getAddresses 10 3 ⟨2, 5⟩ none trivialOracles [1, 2]).1
      = .error ApiError.notFound
  ∧ (∃ out, (getAddresses 10 3 ⟨2, 5⟩ none okOracles [1, 2]).1 = .ok out
      ∧ out.length = 2) := by
  constructor
  · have h := (C8_get_addresses_fail_fast 10 3 ⟨2, 5⟩ none trivialOracles
      [1, 2] (by decide) (by decide)).2.2 [] rfl
      (fun a _ => ⟨⟨a, [], [], [], none, none, [], []⟩, rfl⟩)
    exact h.1 ⟨1, by decide, rfl⟩
  · have h := (C8_get_addresses_fail_fast 10 3 ⟨2, 5⟩ none okOracles
      [1, 2] (by decide) (by decide)).2.2 [(1, ⟨0, 0, 0⟩), (2, ⟨0, 0, 0⟩)]
      rfl (fun a _ => ⟨⟨a, [], [], [], none, none, [], []⟩, rfl⟩)
    obtain ⟨out, hok, hlen2, _⟩ := h.2 (by decide)
    exact ⟨out, hok, by simpa using hlen2⟩

/-- C10: when the latest-block-slot computation returns no slot, `get_status`
does not fail: it reports `last_slot` as absent, `next_slot` as the
successor of slot `(0,0)` and `current_cycle` as the cycle of slot `(0,0)`;
`get_stakers` uses the cycle of slot `(0,0)` for its roll query, and
`get_addresses` passes slot `(0,0)` (and the lookahead window anchored at
it) to the selector. -/
theorem C10_zero_slot_fallback (cfg : ConsensusConfig) (node_id now : Nat)
    (consensus_stats network_stats pool_stats : Nat)
    (peers : List (Nat × (Nat × Bool)))
    (cycle_rolls : Nat → List (Address × Nat))
    (ns : Slot) (hns : (Slot.mk 0 0).get_next_slot cfg.thread_count = .ok ns)
    (maxA la : Nat) (o : AddrOracles) (addresses : List Address)
    (states : List (Address × AddressState))
    (hlen : addresses.length ≤ maxA) (hnd : addresses.Nodup)
    (hso : o.addresses_info addresses = .ok states)
    (htasks : ∀ a ∈ addresses, ∃ g, addrTask o a = .ok g)
    (hall : ∀ a ∈ addresses, (alookup states a).isSome) :
    (∃ st, getStatus cfg node_id now none consensus_stats network_stats
        pool_stats peers = .ok st
      ∧ st.last_slot = none ∧ st.next_slot = ns
      ∧ st.current_cycle = (Slot.mk 0 0).get_cycle cfg.periods_per_cycle)
  ∧ getStakers cfg none cycle_rolls
      = .ok (sortByRolls
          (cycle_rolls ((Slot.mk 0 0).get_cycle cfg.periods_per_cycle)))
  ∧ (∃ out, (getAddresses maxA la cfg none o addresses).1 = .ok out
      ∧ (∀ (i : Nat) (a : Address), addresses[i]? = some a →
          ∃ info, out[i]? = some info
            ∧ info.block_draws = (o.selections a ⟨0, 0⟩ ⟨la, 0⟩).1
            ∧ info.endorsement_draws = (o.selections a ⟨0, 0⟩ ⟨la, 0⟩).2)) := by
  refine ⟨?_, ?_, ?_⟩
  · refine ⟨{ node_id := node_id, current_time := now,
              connected_nodes := peers, last_slot := none, next_slot := ns,
              consensus_stats := consensus_stats,
              network_stats := network_stats, pool_stats := pool_stats,
              current_cycle :=
                (Slot.mk 0 0).get_cycle cfg.periods_per_cycle },
      ?_, rfl, rfl, rfl⟩
    simp only [getStatus, currSlotOf, Option.getD_none, hns]
  · rfl
  · obtain ⟨out, hok, _, hidx⟩ := getAddresses_success maxA la cfg none o
      addresses states hlen hnd hso htasks hall
    refine ⟨out, hok, ?_⟩
    intro i a hi
    obtain ⟨info, hinfo, _, _, hbd, hed⟩ := hidx i a hi
    refine ⟨info, hinfo, ?_, ?_⟩
    · rw [hbd]
      simp [currSlotOf]
    · rw [hed]
      simp [currSlotOf]

/-- Witness for C10 at thread count 2, five periods per cycle, one queried
address. -/
theorem C10_zero_slot_fallback_witness :
    (∃ st, getStatus ⟨2, 5⟩ 11 99 none 1 2 3 [] = .ok st
      ∧ st.last_slot = none ∧ st.next_slot = ⟨0, 1⟩
      ∧ st.current_cycle = (Slot.mk 0 0).get_cycle 5)
  ∧ getStakers ⟨2, 5⟩ none (fun c => [(c, c)])
      = .ok (sortByRolls [((Slot.mk 0 0).get_cycle 5,
          (Slot.mk 0 0).get_cycle 5)])
  ∧ (∃ out, (getAddresses 10 3 ⟨2, 5⟩ none okOracles [1]).1 = .ok out
      ∧ (∃ info, out[0]? = some info
          ∧ info.block_draws = (okOracles.selections 1 ⟨0, 0⟩ ⟨3, 0⟩).1
          ∧ info.endorsement_draws
              = (okOracles.selections 1 ⟨0, 0⟩ ⟨3, 0⟩).2)) := by
  obtain ⟨hst, hstk, hout⟩ := C10_zero_slot_fallback ⟨2, 5⟩ 11 99 1 2 3 []
    (fun c => [(c, c)]) ⟨0, 1⟩ rfl 10 3 okOracles [1] [(1, ⟨0, 0, 0⟩)]
    (by decide) (by decide) rfl
    (fun a _ => ⟨⟨a, [], [], [], none, none, [], []⟩, rfl⟩) (by decide)
  obtain ⟨out, hok, hidx⟩ := hout
  exact ⟨hst, hstk, out, hok, hidx 0 1 rfl⟩
